import Mathlib

/-!
Verification of the `openapi-powerautomate-compat` document-transformation
utilities (`swagger_cleaner.py`, `scripts/swagger_cleaner.py`,
`scripts/trigger_augmenter.py`, `scripts/certification_packager.py`).

The Python code operates on values produced by `json.load` / `yaml.safe_load`:
`None`, booleans, numbers, strings, lists and (insertion-ordered,
string-keyed) dictionaries.  We embed such documents as the inductive type
`Json` below; dictionaries become association lists with the keys in
insertion order (Python dictionaries cannot hold duplicate keys, so the
theorems that need it carry a `Nodup` hypothesis).

Numbers are embedded as `Int`: none of the verified code performs numeric
arithmetic on document values, it only tests truthiness and equality, and
the documents handled by the repository carry integer literals only.

Python raises `TypeError`/`AttributeError` when a document node has an
unexpected shape (for example calling `.items()` on a non-dict).  Every such
spot is marked in the definitions below; the corresponding Lean branch
returns the value unchanged and the theorems carry well-formedness
hypotheses that keep those branches unreachable.
-/

/-- A JSON/YAML document value, as produced by `json.load`/`yaml.safe_load`.
Objects are insertion-ordered association lists, mirroring Python dicts. -/
inductive Json where
  | null : Json
  | bool : Bool → Json
  | num : Int → Json
  | str : String → Json
  | arr : List Json → Json
  | obj : List (String × Json) → Json
  deriving Repr

mutual

/-- Structural equality of documents (Python `==` on parsed JSON values). -/
def Json.beq : Json → Json → Bool
  | .null, .null => true
  | .bool a, .bool b => a == b
  | .num a, .num b => a == b
  | .str a, .str b => a == b
  | .arr xs, .arr ys => Json.beqArr xs ys
  | .obj xs, .obj ys => Json.beqObj xs ys
  | _, _ => false

def Json.beqArr : List Json → List Json → Bool
  | [], [] => true
  | x :: xs, y :: ys => Json.beq x y && Json.beqArr xs ys
  | _, _ => false

def Json.beqObj : List (String × Json) → List (String × Json) → Bool
  | [], [] => true
  | (k, v) :: xs, (k', v') :: ys => k == k' && Json.beq v v' && Json.beqObj xs ys
  | _, _ => false

end

mutual

theorem Json.beq_correct : ∀ a b : Json, Json.beq a b = true ↔ a = b
  | .null, b => by cases b <;> simp [Json.beq]
  | .bool x, b => by cases b <;> simp [Json.beq]
  | .num x, b => by cases b <;> simp [Json.beq]
  | .str x, b => by cases b <;> simp [Json.beq]
  | .arr xs, b => by
      cases b <;> simp [Json.beq]
      exact Json.beqArr_correct xs _
  | .obj xs, b => by
      cases b <;> simp [Json.beq]
      exact Json.beqObj_correct xs _

theorem Json.beqArr_correct : ∀ xs ys : List Json, Json.beqArr xs ys = true ↔ xs = ys
  | [], ys => by cases ys <;> simp [Json.beqArr]
  | x :: xs, ys => by
      cases ys with
      | nil => simp [Json.beqArr]
      | cons y ys =>
          simp only [Json.beqArr, Bool.and_eq_true, List.cons.injEq]
          rw [Json.beq_correct x y, Json.beqArr_correct xs ys]

theorem Json.beqObj_correct :
    ∀ xs ys : List (String × Json), Json.beqObj xs ys = true ↔ xs = ys
  | [], ys => by cases ys <;> simp [Json.beqObj]
  | (k, v) :: xs, ys => by
      cases ys with
      | nil => simp [Json.beqObj]
      | cons y ys =>
          obtain ⟨k', v'⟩ := y
          simp only [Json.beqObj, Bool.and_eq_true, List.cons.injEq, Prod.mk.injEq,
            beq_iff_eq]
          rw [Json.beq_correct v v', Json.beqObj_correct xs ys]

end

instance : DecidableEq Json := fun a b => decidable_of_iff _ (Json.beq_correct a b)

/-! ### Dictionary primitives (Python dict operations, value level) -/

/-- Python `d[k]` / `d.get(k)`: first (and, for genuine dicts, only) binding. -/
def lookupJ : List (String × Json) → String → Option Json
  | [], _ => none
  | (k', v) :: rest, k => if k' = k then some v else lookupJ rest k

/-- Python `k in d`. -/
def hasKey (kvs : List (String × Json)) (k : String) : Bool :=
  (lookupJ kvs k).isSome

/-- Python `d[k] = v`: update in place if the key exists (keeping its
position), otherwise append the new binding at the end. -/
def setKey : List (String × Json) → String → Json → List (String × Json)
  | [], k, v => [(k, v)]
  | (k', v') :: rest, k, v =>
    if k' = k then (k, v) :: rest else (k', v') :: setKey rest k v

/-- Python `del d[k]` (used only under an `if k in d` guard, so dropping every
binding of `k` matches). -/
def delKey (kvs : List (String × Json)) (k : String) : List (String × Json) :=
  kvs.filter (fun kv => kv.1 ≠ k)

/-- Lookup of a top-level key of a document. -/
def topLookup : Json → String → Option Json
  | .obj kvs, k => lookupJ kvs k
  | _, _ => none

/-- Top-level key list of a document. -/
def topKeys : Json → List String
  | .obj kvs => kvs.map Prod.fst
  | _ => []

/-- Python truthiness of a parsed JSON value. -/
def Json.truthy : Json → Bool
  | .null => false
  | .bool b => b
  | .num n => n != 0
  | .str s => !(s.data.isEmpty)
  | .arr xs => !xs.isEmpty
  | .obj kvs => !kvs.isEmpty

/-! ### ASCII string helpers

The titles, operation ids and keys handled by this repository are ASCII, and
`Char.toLower`/`Char.toUpper` agree with Python's `str.lower`/`str.upper`
there; the definitions below spell out the Python string methods used by the
scripts on the character lists underlying `String`. -/

/-- Python `s.lower()` (ASCII). -/
def lowerStr (s : String) : String := ⟨s.data.map Char.toLower⟩

/-- Python `s.upper()` (ASCII). -/
def upperStr (s : String) : String := ⟨s.data.map Char.toUpper⟩

/-- Python `s[0].upper() + s[1:]` on a non-empty string (used on
`operationId` and on endpoint names). -/
def capFirst (s : String) : String :=
  match s.data with
  | [] => ""
  | c :: rest => ⟨Char.toUpper c :: rest⟩

/-- Python `s.capitalize()`: first character uppercased, the rest lowercased. -/
def pyCapitalize (s : String) : String :=
  match s.data with
  | [] => ""
  | c :: rest => ⟨Char.toUpper c :: rest.map Char.toLower⟩

/-- Python `s.startswith(pre)`. -/
def strStartsWith (s pre : String) : Bool := pre.data.isPrefixOf s.data

/-- Split a character list at every character satisfying `p`
(Python `s.split(sep)` keeps empty pieces). -/
def splitByChars (p : Char → Bool) : List Char → List (List Char)
  | [] => [[]]
  | c :: rest =>
    let r := splitByChars p rest
    if p c then [] :: r
    else
      match r with
      | [] => [[c]]
      | w :: ws => (c :: w) :: ws

/-- Python `s.split(sep)` for a one-character separator. -/
def splitStr (s : String) (sep : Char) : List String :=
  (splitByChars (fun c => c = sep) s.data).map fun w => ⟨w⟩

/-- Python whitespace class (`\s` over the ASCII range): space, tab, newline,
carriage return, vertical tab, form feed. -/
def isPySpace (c : Char) : Bool :=
  c = ' ' || c = '\t' || c = '\n' || c = '\r' || c = Char.ofNat 11 || c = Char.ofNat 12

/-- Python `s.split()` (split on whitespace runs, dropping empty pieces). -/
def pySplitWs (s : String) : List String :=
  ((splitByChars isPySpace s.data).filter (fun w => !w.isEmpty)).map fun w => ⟨w⟩

/-- Python `" ".join(words)`. -/
def joinSpace : List String → String
  | [] => ""
  | [w] => w
  | w :: rest => w ++ " " ++ joinSpace rest

/-- Python `s.replace(pat, rep)`: replace every non-overlapping occurrence,
scanning left to right.  The recursion consumes at least one character per
step, so the input length serves as fuel; `replaceAllChars` supplies it. -/
def replaceAllAux (pat rep : List Char) : Nat → List Char → List Char
  | 0, l => l
  | _ + 1, [] => []
  | fuel + 1, c :: rest =>
    if pat ≠ [] ∧ pat.isPrefixOf (c :: rest) then
      rep ++ replaceAllAux pat rep fuel ((c :: rest).drop pat.length)
    else
      c :: replaceAllAux pat rep fuel rest

/-- Python `s.replace(pat, rep)` on character lists. -/
def replaceAllChars (pat rep l : List Char) : List Char :=
  replaceAllAux pat rep l.length l

/-- Python `s.replace(pat, rep)`. -/
def replaceStr (s pat rep : String) : String :=
  ⟨replaceAllChars pat.data rep.data s.data⟩

/-- ASCII letters and digits (the regex class `[a-zA-Z0-9]`). -/
def isAsciiAlnum (c : Char) : Bool :=
  ('a' ≤ c && c ≤ 'z') || ('A' ≤ c && c ≤ 'Z') || ('0' ≤ c && c ≤ '9')

/-- The regex class `\w` (ASCII): letters, digits and underscore. -/
def isWordChar (c : Char) : Bool := isAsciiAlnum c || c = '_'

/-- `re.sub(r'\s+', ' ', s)`: every maximal whitespace run becomes a single
space.  The flag records whether the previous character was whitespace. -/
def collapseWsAux : Bool → List Char → List Char
  | _, [] => []
  | prevSpace, c :: rest =>
    if isPySpace c then
      if prevSpace then collapseWsAux true rest
      else ' ' :: collapseWsAux true rest
    else c :: collapseWsAux false rest

/-- `re.sub(r'\s+', ' ', s)` on a character list. -/
def collapseWsChars (l : List Char) : List Char := collapseWsAux false l

/-- Python `s.strip()` on a character list (ASCII whitespace). -/
def pyStripChars (l : List Char) : List Char :=
  ((l.dropWhile isPySpace).reverse.dropWhile isPySpace).reverse

/-- `re.sub(r'[^a-zA-Z0-9]+$', '', s)`: drop the maximal trailing run of
non-alphanumeric characters. -/
def rdropNonAlnum (l : List Char) : List Char :=
  (l.reverse.dropWhile (fun c => !isAsciiAlnum c)).reverse

/-- Case-insensitive match of the word `w` at the start of `l`
(`re.IGNORECASE`, ASCII). -/
def ciPrefix (w l : List Char) : Bool :=
  decide (w.length ≤ l.length) &&
    ((l.take w.length).map Char.toLower == w.map Char.toLower)

/-- Does `\b w \b` (case-insensitive) match at the start of `l`, where `prev`
is the character just before `l` in the full string (`none` at the string
start)?  `w` is assumed to consist of word characters (true of the restricted
words this repository removes), for which `\b` on each side demands a
non-word neighbour. -/
def wordMatchAt (w : List Char) (prev : Option Char) (l : List Char) : Bool :=
  !w.isEmpty && ciPrefix w l &&
    (match prev with
     | none => true
     | some p => !isWordChar p) &&
    (match (l.drop w.length).head? with
     | none => true
     | some c => !isWordChar c)

/-- `re.sub(rf'\b{w}\b', '', s, flags=re.IGNORECASE)`: delete every
non-overlapping whole-word occurrence, scanning left to right.  Boundary
lookarounds inspect the original string, so after a match the scan resumes
after the matched text with the matched text's last character as the new
`prev`.  Each step consumes at least one character, so the input length
serves as fuel. -/
def subWordAux (w : List Char) : Nat → Option Char → List Char → List Char
  | 0, _, l => l
  | _ + 1, _, [] => []
  | fuel + 1, prev, c :: rest =>
    if wordMatchAt w prev (c :: rest) then
      subWordAux w fuel (((c :: rest).take w.length).getLast?) ((c :: rest).drop w.length)
    else
      c :: subWordAux w fuel (some c) rest

/-- `re.sub(rf'\b{w}\b', '', s, flags=re.IGNORECASE)` on strings. -/
def subWholeWord (w s : String) : String :=
  ⟨subWordAux w.data s.data.length none s.data⟩

/-! ### Induction principle for documents -/

theorem List.sizeOf_snd_lt_of_mem {kv : String × Json} {kvs : List (String × Json)}
    (h : kv ∈ kvs) : sizeOf kv.2 < sizeOf kvs := by
  have h1 : sizeOf kv < sizeOf kvs := List.sizeOf_lt_of_mem h
  obtain ⟨k, v⟩ := kv
  simp only [Prod.mk.sizeOf_spec] at h1 ⊢
  omega

/-- Structural induction over documents, with membership hypotheses for the
elements of arrays and objects. -/
theorem Json.ind (P : Json → Prop)
    (hnull : P .null) (hbool : ∀ b, P (.bool b)) (hnum : ∀ n, P (.num n))
    (hstr : ∀ s, P (.str s))
    (harr : ∀ xs, (∀ x ∈ xs, P x) → P (.arr xs))
    (hobj : ∀ kvs, (∀ kv ∈ kvs, P kv.2) → P (.obj kvs)) :
    ∀ v, P v
  | .null => hnull
  | .bool b => hbool b
  | .num n => hnum n
  | .str s => hstr s
  | .arr xs => harr xs (fun x hx => Json.ind P hnull hbool hnum hstr harr hobj x)
  | .obj kvs => hobj kvs (fun kv hkv => Json.ind P hnull hbool hnum hstr harr hobj kv.2)
termination_by v => sizeOf v
decreasing_by
  · have := List.sizeOf_lt_of_mem hx
    simp only [Json.arr.sizeOf_spec]
    omega
  · have := List.sizeOf_snd_lt_of_mem hkv
    simp only [Json.obj.sizeOf_spec]
    omega

/-! ### Lemmas about the dictionary primitives -/

theorem lookupJ_setKey_self (l : List (String × Json)) (k : String) (v : Json) :
    lookupJ (setKey l k v) k = some v := by
  induction l with
  | nil => simp [setKey, lookupJ]
  | cons kv rest ih =>
      obtain ⟨k', v'⟩ := kv
      by_cases h : k' = k <;> simp [setKey, lookupJ, h, ih]

theorem lookupJ_setKey_ne (l : List (String × Json)) (k k' : String) (v : Json)
    (h : k' ≠ k) : lookupJ (setKey l k v) k' = lookupJ l k' := by
  induction l with
  | nil => simp [setKey, lookupJ, Ne.symm h]
  | cons kv rest ih =>
      obtain ⟨k₀, v₀⟩ := kv
      by_cases h0 : k₀ = k
      · subst h0
        simp [setKey, lookupJ, Ne.symm h]
      · simp only [setKey, if_neg h0, lookupJ]
        by_cases h1 : k₀ = k' <;> simp [h1, ih]

theorem map_fst_setKey_of_hasKey (l : List (String × Json)) (k : String) (v : Json)
    (h : hasKey l k = true) : (setKey l k v).map Prod.fst = l.map Prod.fst := by
  induction l with
  | nil => simp [hasKey, lookupJ] at h
  | cons kv rest ih =>
      obtain ⟨k₀, v₀⟩ := kv
      by_cases h0 : k₀ = k
      · subst h0; simp [setKey]
      · simp only [hasKey, lookupJ, if_neg h0] at h
        simp [setKey, if_neg h0, ih h]

theorem delKey_cons_self (k : String) (v : Json) (rest : List (String × Json)) :
    delKey ((k, v) :: rest) k = delKey rest k := by
  simp [delKey, List.filter_cons]

theorem delKey_cons_ne (k k₀ : String) (v₀ : Json) (rest : List (String × Json))
    (h : k₀ ≠ k) : delKey ((k₀, v₀) :: rest) k = (k₀, v₀) :: delKey rest k := by
  simp [delKey, List.filter_cons, h]

theorem lookupJ_delKey_ne (l : List (String × Json)) (k k' : String)
    (h : k' ≠ k) : lookupJ (delKey l k) k' = lookupJ l k' := by
  induction l with
  | nil => rfl
  | cons kv rest ih =>
      obtain ⟨k₀, v₀⟩ := kv
      by_cases h0 : k₀ = k
      · subst h0
        rw [delKey_cons_self, ih]
        simp [lookupJ, Ne.symm h]
      · rw [delKey_cons_ne _ _ _ _ h0]
        by_cases h1 : k₀ = k' <;> simp [lookupJ, h1, ih]

theorem delKey_setKey_self (l : List (String × Json)) (k : String) (v : Json) :
    delKey (setKey l k v) k = delKey l k := by
  induction l with
  | nil => simp [setKey, delKey, List.filter_cons]
  | cons kv rest ih =>
      obtain ⟨k₀, v₀⟩ := kv
      by_cases h0 : k₀ = k
      · subst h0
        have e : setKey ((k₀, v₀) :: rest) k₀ v = (k₀, v) :: rest := by
          simp [setKey]
        rw [e, delKey_cons_self, delKey_cons_self]
      · simp only [setKey, if_neg h0]
        rw [delKey_cons_ne _ _ _ _ h0, delKey_cons_ne _ _ _ _ h0, ih]

theorem hasKey_setKey_self (l : List (String × Json)) (k : String) (v : Json) :
    hasKey (setKey l k v) k = true := by
  simp [hasKey, lookupJ_setKey_self]

/-! ### `swagger_cleaner.py` (root and `scripts/` copies) -/

mutual

/-- `remove_anyof_oneof`: recursively drop every `anyOf`/`oneOf` binding.
The two copies of the cleaner are textually identical on this function (the
`scripts/` copy only adds a comment).  The Python dict comprehension first
drops the banned keys and the following loop rewrites the remaining values
recursively; here the two passes are fused into one walk over the bindings,
which builds the same dictionary. -/
def remove_anyof_oneof : Json → Json
  | .obj kvs => .obj (raoObj kvs)
  | .arr xs => .arr (raoArr xs)
  | v => v

def raoObj : List (String × Json) → List (String × Json)
  | [] => []
  | (k, v) :: rest =>
    if k = "anyOf" ∨ k = "oneOf" then raoObj rest
    else (k, remove_anyof_oneof v) :: raoObj rest

def raoArr : List Json → List Json
  | [] => []
  | x :: rest => remove_anyof_oneof x :: raoArr rest

end

/-- The regex `^(v\d+|api|version\d+)$` with `re.IGNORECASE` from
`get_endpoint_name`. -/
def isVersionSegment (s : String) : Bool :=
  let l := (lowerStr s).data
  l = ['a', 'p', 'i'] ||
    (match l with
     | 'v' :: rest => !rest.isEmpty && rest.all Char.isDigit
     | _ => false) ||
    (match l with
     | 'v' :: 'e' :: 'r' :: 's' :: 'i' :: 'o' :: 'n' :: rest =>
        !rest.isEmpty && rest.all Char.isDigit
     | _ => false)

/-- `segment.split(".")[0]` (a split is never empty, so the head exists). -/
def headSplitDot (s : String) : String :=
  match splitStr s '.' with
  | [] => ""
  | w :: _ => w

/-- `get_endpoint_name` (identical in the two cleaner copies): the endpoint
name of a path, skipping an API-version first segment. -/
def get_endpoint_name (path : String) : String :=
  let clean := if strStartsWith path "/" then (⟨path.data.drop 1⟩ : String) else path
  let parts := (splitStr clean '/').filter (fun p => !p.data.isEmpty)
  match parts with
  | [] => "Root"
  | p0 :: rest =>
    if isVersionSegment p0 then
      match rest with
      | p1 :: _ => headSplitDot p1
      | [] => "API"
    else headSplitDot p0

/-- The HTTP method list both cleaner copies test against. -/
def httpMethods : List String :=
  ["get", "post", "put", "delete", "patch", "options", "head"]

/-- `method.lower() in ["get", ..., "head"]`. -/
def isHttpMethod (m : String) : Bool := httpMethods.contains (lowerStr m)

/-- The description `f"{capitalized_name} {method_name}"` that
`enhance_endpoints` builds for the operation `m` of `path`. -/
def endpointDescription (path m : String) : String :=
  let name := get_endpoint_name path
  let capName := if name.data.isEmpty then "Root" else capFirst name
  capName ++ " " ++ upperStr m

/-- Capitalize the first letter of a truthy `operationId` (identical in both
copies).  Python indexes `operation_id[0]`, so a truthy non-string value
would raise `TypeError`; modelled as leaving the operation unchanged. -/
def capitalizeOperationId (op : List (String × Json)) : List (String × Json) :=
  match lookupJ op "operationId" with
  | some (.str s) =>
      if s.data.isEmpty then op else setKey op "operationId" (.str (capFirst s))
  | _ => op

/-- The readable name the scripts copy builds for a parameter summary:
underscores and hyphens become spaces, the words are capitalized and joined
with single spaces. -/
def readableName (s : String) : String :=
  joinSpace ((pySplitWs (replaceStr (replaceStr s "_" " ") "-" " ")).map pyCapitalize)

/-- Body of the parameter loop of the scripts copy of `enhance_endpoints`.
A non-dict parameter (Python would raise on the mutations), or a truthy
non-string `name` when the readable summary must be built (Python would
raise in `.replace`), leaves the parameter unchanged here. -/
def enhanceParam : Json → Json
  | .obj p =>
    let step1 :=
      if hasKey p "x-ms-summary" then some p
      else
        match lookupJ p "name" with
        | some (.str s) => some (setKey p "x-ms-summary" (.str (readableName s)))
        | none => some (setKey p "x-ms-summary" (.str (readableName "Parameter")))
        | some _ => none
    match step1 with
    | none => .obj p
    | some p1 =>
      let p2 :=
        if hasKey p1 "description" then p1
        else
          let dv :=
            match lookupJ p1 "x-ms-summary" with
            | some v => v
            | none =>
                match lookupJ p1 "name" with
                | some v => v
                | none => .str "Parameter"
          setKey p1 "description" dv
      let p3 :=
        if lookupJ p2 "in" = some (.str "path") ∧ ¬hasKey p2 "x-ms-url-encoding" then
          setKey p2 "x-ms-url-encoding" (.str "single")
        else p2
      let pname :=
        match lookupJ p3 "name" with
        | some (.str s) => s
        | _ => ""
      if lowerStr pname = "x-skipworkflows" ∨ lowerStr pname = "x-skipwebhooks" then
        .obj (setKey p3 "x-ms-visibility" (.str "advanced"))
      else .obj p3
  | v => v

/-- Per-operation body of the scripts `enhance_endpoints` loop: add a
description when missing or falsy, capitalize `operationId`, then enhance
each parameter.  A non-dict operation raises in Python on the first
mutation; modelled unchanged. -/
def enhanceOpScripts (path m : String) : Json → Json
  | .obj op =>
    let desc := endpointDescription path m
    let op1 :=
      match lookupJ op "description" with
      | none => setKey op "description" (.str desc)
      | some v => if v.truthy then op else setKey op "description" (.str desc)
    let op2 := capitalizeOperationId op1
    let op3 :=
      match lookupJ op2 "parameters" with
      | some (.arr ps) => setKey op2 "parameters" (.arr (ps.map enhanceParam))
      | some _ => op2
      | none => op2
    .obj op3
  | v => v

/-- Per-path body of the scripts `enhance_endpoints` loop (non-method keys
such as path-level `parameters` are skipped).  A non-dict path item raises
in Python at `.items()`; modelled unchanged. -/
def enhanceItemScripts (path : String) : Json → Json
  | .obj item =>
      .obj (item.map fun e =>
        (e.1, if isHttpMethod e.1 then enhanceOpScripts path e.1 e.2 else e.2))
  | v => v

/-- `enhance_endpoints` from `scripts/swagger_cleaner.py`.  `data.copy()` is
a shallow copy, so at the value level the result is the input with the value
of its `paths` binding rewritten; a non-dict `paths` value raises in Python
at `.items()`. -/
def enhance_endpoints (d : Json) : Json :=
  match d with
  | .obj kvs =>
    match lookupJ kvs "paths" with
    | some (.obj paths) =>
        .obj (setKey kvs "paths"
          (.obj (paths.map fun pi => (pi.1, enhanceItemScripts pi.1 pi.2))))
    | some _ => d
    | none => d
  | _ => d

/-- Value of the input document after the scripts `enhance_endpoints`
returns.  The function starts from the shallow copy `result = data.copy()`:
every nested node of `result` is shared with the input, all writes go
through those shared nested nodes, and no top-level binding of `result` is
added or replaced, so the input ends up value-equal to the returned
document. -/
def enhance_endpoints_post (d : Json) : Json := enhance_endpoints d

/-- Per-operation body of the root-copy `enhance_endpoints` loop: the
description is always overwritten and parameters are untouched. -/
def enhanceOpSrc (path m : String) : Json → Json
  | .obj op => .obj (capitalizeOperationId (setKey op "description" (.str (endpointDescription path m))))
  | v => v

/-- Per-path body of the root-copy `enhance_endpoints` loop. -/
def enhanceItemSrc (path : String) : Json → Json
  | .obj item =>
      .obj (item.map fun e =>
        (e.1, if isHttpMethod e.1 then enhanceOpSrc path e.1 e.2 else e.2))
  | v => v

/-- `enhance_endpoints` from the root `swagger_cleaner.py`. -/
def enhance_endpoints_src (d : Json) : Json :=
  match d with
  | .obj kvs =>
    match lookupJ kvs "paths" with
    | some (.obj paths) =>
        .obj (setKey kvs "paths"
          (.obj (paths.map fun pi => (pi.1, enhanceItemSrc pi.1 pi.2))))
    | some _ => d
    | none => d
  | _ => d

/-- The hardcoded allow-list of the root `swagger_cleaner.py`. -/
def ENDPOINTS_TO_KEEP : List String :=
  ["/v2/records.json/get",
   "/v2/records/{record_id}.json/get",
   "/v2/webhooks.json/post",
   "/v2/webhooks/{webhook_id}.json/delete"]

/-- Is the entry `e` of the path item of `p` kept by `filter_endpoints` with
allow-list `keep`?  An HTTP-method entry is kept when `f"{path}/{method}"`
or `f"{path}/{method.lower()}"` is in the list; every other entry (such as
path-level `parameters`) is kept. -/
def keptEntry (keep : List String) (p : String) (e : String × Json) : Bool :=
  if isHttpMethod e.1 then
    keep.contains (p ++ "/" ++ e.1) || keep.contains (p ++ "/" ++ lowerStr e.1)
  else true

/-- `filter_endpoints` from `scripts/swagger_cleaner.py`, with the
configured `endpointsToKeep` list as the `keep` parameter (the root copy is
the same function reading the hardcoded `ENDPOINTS_TO_KEEP`).  A path stays
only if its filtered item is non-empty; a non-dict path item raises in
Python at `.items()`. -/
def filter_endpoints (keep : List String) (d : Json) : Json :=
  if keep.isEmpty then d
  else
    match d with
    | .obj kvs =>
      match lookupJ kvs "paths" with
      | some (.obj paths) =>
          .obj (setKey kvs "paths" (.obj (paths.filterMap fun pi =>
            match pi.2 with
            | .obj item =>
                let filtered := item.filter (keptEntry keep pi.1)
                if filtered.isEmpty then none else some (pi.1, Json.obj filtered)
            | v => some (pi.1, v))))
      | some _ => d
      | none => d
    | _ => d

mutual

/-- The model names collected by `extract_refs` inside `find_used_models`
(as a list; only membership matters, mirroring the Python set).  A dict node
contributes `ref.replace("#/definitions/", "")` when its `$ref` value starts
with `#/definitions/`; the walk then descends into every value.  A non-string
`$ref` value would make `.startswith` raise; it contributes nothing here. -/
def extractRefs : Json → List String
  | .obj kvs =>
    (match lookupJ kvs "$ref" with
     | some (.str r) =>
        if strStartsWith r "#/definitions/" then [replaceStr r "#/definitions/" ""]
        else []
     | _ => []) ++ extractRefsObj kvs
  | .arr xs => extractRefsArr xs
  | _ => []

def extractRefsObj : List (String × Json) → List String
  | [] => []
  | kv :: rest => extractRefs kv.2 ++ extractRefsObj rest

def extractRefsArr : List Json → List String
  | [] => []
  | x :: rest => extractRefs x ++ extractRefsArr rest

end

/-- `find_used_models` from `scripts/swagger_cleaner.py`. -/
def find_used_models (d : Json) : List String := extractRefs d

mutual

/-- All raw `$ref` string values of the dict nodes of a document, in walk
order: the `$ref` occurrences `extract_refs` inspects. -/
def refStrings : Json → List String
  | .obj kvs =>
    (match lookupJ kvs "$ref" with
     | some (.str r) => [r]
     | _ => []) ++ refStringsObj kvs
  | .arr xs => refStringsArr xs
  | _ => []

def refStringsObj : List (String × Json) → List String
  | [] => []
  | kv :: rest => refStrings kv.2 ++ refStringsObj rest

def refStringsArr : List Json → List String
  | [] => []
  | x :: rest => refStrings x ++ refStringsArr rest

end

/-- `remove_unused_models` from `scripts/swagger_cleaner.py`: keep exactly
the definitions whose name `extract_refs` collected somewhere in the whole
input (the scan runs on the original document, definitions included).  A
non-dict `definitions` value raises in Python at `.items()`. -/
def remove_unused_models (d : Json) : Json :=
  match d with
  | .obj kvs =>
    match lookupJ kvs "definitions" with
    | some (.obj defs) =>
        let used := find_used_models d
        .obj (setKey kvs "definitions" (.obj (defs.filter fun kv => used.contains kv.1)))
    | some _ => d
    | none => d
  | _ => d

mutual

/-- `remove_description_from_refs` from `scripts/swagger_cleaner.py`: a dict
node carrying `$ref` is replaced by a node holding only `$ref` and its
`x-` extension bindings (those values copied without descending); every
other node is rewritten recursively. -/
def remove_description_from_refs : Json → Json
  | .obj kvs =>
    (match lookupJ kvs "$ref" with
     | some r => .obj (("$ref", r) :: kvs.filter fun kv => strStartsWith kv.1 "x-")
     | none => .obj (rdfrObj kvs))
  | .arr xs => .arr (rdfrArr xs)
  | v => v

def rdfrObj : List (String × Json) → List (String × Json)
  | [] => []
  | kv :: rest => (kv.1, remove_description_from_refs kv.2) :: rdfrObj rest

def rdfrArr : List Json → List Json
  | [] => []
  | x :: rest => remove_description_from_refs x :: rdfrArr rest

end

/-- Per-operation body of `keep_only_success_responses`: keep only the
response bindings whose status-code key starts with `"2"`.  A non-dict
operation or `responses` value raises in Python; modelled unchanged. -/
def kosrOp : Json → Json
  | .obj op =>
    match lookupJ op "responses" with
    | some (.obj resps) =>
        .obj (setKey op "responses" (.obj (resps.filter fun r => strStartsWith r.1 "2")))
    | some _ => .obj op
    | none => .obj op
  | v => v

/-- Per-path body of `keep_only_success_responses` (non-method keys are
skipped). -/
def kosrItem : Json → Json
  | .obj item =>
      .obj (item.map fun e => (e.1, if isHttpMethod e.1 then kosrOp e.2 else e.2))
  | v => v

/-- `keep_only_success_responses` from `scripts/swagger_cleaner.py`. -/
def keep_only_success_responses (d : Json) : Json :=
  match d with
  | .obj kvs =>
    match lookupJ kvs "paths" with
    | some (.obj paths) =>
        .obj (setKey kvs "paths" (.obj (paths.map fun pi => (pi.1, kosrItem pi.2))))
    | some _ => d
    | none => d
  | _ => d

/-- Value of the input document after `keep_only_success_responses` returns:
all writes go through the operation dicts shared with the shallow copy, and
no top-level binding of the copy is added or replaced, so the input ends up
value-equal to the returned document. -/
def keep_only_success_responses_post (d : Json) : Json := keep_only_success_responses d

/-- Python `value.lower()` when the value is a string; a truthy non-string
would raise `AttributeError` in Python, modelled as the empty string (so it
matches nothing). -/
def lowerOfGetStr (v : Option Json) : String :=
  match v with
  | some (.str s) => lowerStr s
  | _ => ""

/-- `param.get("in", "")` and `removal_config.get("in", "")` as strings. -/
def getStrField (kvs : List (String × Json)) (k : String) : String :=
  match lookupJ kvs k with
  | some (.str s) => s
  | _ => ""

/-- Does `param` match one removal entry of the configured
`parametersToRemove` list?  The names compare lowercased and the `in`
location must match unless the configured one is falsy. -/
def matchesRemoval (param rc : List (String × Json)) : Bool :=
  lowerOfGetStr (lookupJ param "name") = lowerOfGetStr (lookupJ rc "name") &&
    (getStrField rc "in" = "" || getStrField param "in" = getStrField rc "in")

/-- Should `param` be removed by `remove_configured_parameters`?  Non-dict
entries raise in Python (`.get`); modelled as no match. -/
def shouldRemoveParam (rems : List Json) (param : Json) : Bool :=
  match param with
  | .obj p => rems.any fun rc =>
      match rc with
      | .obj r => matchesRemoval p r
      | _ => false
  | _ => false

/-- Per-operation body of `remove_configured_parameters`: filter the
parameter list and drop the `parameters` binding when it becomes empty. -/
def rcpOp (rems : List Json) : Json → Json
  | .obj op =>
    match lookupJ op "parameters" with
    | some (.arr ps) =>
        let filtered := ps.filter fun p => !shouldRemoveParam rems p
        if filtered.isEmpty then .obj (delKey op "parameters")
        else .obj (setKey op "parameters" (.arr filtered))
    | some _ => .obj op
    | none => .obj op
  | v => v

/-- Per-path body of `remove_configured_parameters`. -/
def rcpItem (rems : List Json) : Json → Json
  | .obj item =>
      .obj (item.map fun e => (e.1, if isHttpMethod e.1 then rcpOp rems e.2 else e.2))
  | v => v

/-- `remove_configured_parameters` from `scripts/swagger_cleaner.py`, with
the configured `parametersToRemove` value as the `ptr` parameter.  A falsy
configured list returns the copy unchanged; iterating a non-list raises in
Python when the first `.get` runs. -/
def remove_configured_parameters (ptr : Json) (d : Json) : Json :=
  match d with
  | .obj kvs =>
    match lookupJ kvs "paths" with
    | some (.obj paths) =>
        if ptr.truthy then
          match ptr with
          | .arr rems =>
              .obj (setKey kvs "paths" (.obj (paths.map fun pi => (pi.1, rcpItem rems pi.2))))
          | _ => d
        else d
    | some _ => d
    | none => d
  | _ => d

/-- Value of the input document after `remove_configured_parameters`
returns: all writes go through the operation dicts shared with the shallow
copy, so the input ends up value-equal to the returned document. -/
def remove_configured_parameters_post (ptr : Json) (d : Json) : Json :=
  remove_configured_parameters ptr d

/-- Restricted-words list of `fix_info_section`:
`info_config.get("titleRestrictedWords", ["api", "connector"])`.  Python
then interpolates each element into a whole-word regex; a configured list is
expected to hold strings (as the shipped config does), so only string
elements are retained; for a dict Python would iterate its keys and for a
string its characters. -/
def restrictedWords (infoCfg : Json) : List String :=
  match topLookup infoCfg "titleRestrictedWords" with
  | none => ["api", "connector"]
  | some (.arr ws) => ws.filterMap fun w =>
      match w with
      | .str s => some s
      | _ => none
  | some (.obj kvs) => kvs.map Prod.fst
  | some (.str s) => s.data.map fun c => (⟨[c]⟩ : String)
  | some _ => []

/-- The title-fixing pipeline of `fix_info_section`: remove each restricted
word (in list order) as a case-insensitive whole word, collapse whitespace
runs to single spaces, strip, then drop trailing non-alphanumerics. -/
def fixTitle (ws : List String) (t : String) : String :=
  let afterWords := ws.foldl (fun acc w => subWholeWord w acc) t
  ⟨rdropNonAlnum (pyStripChars (collapseWsChars afterWords.data))⟩

/-- The rewritten `info` object built by `fix_info_section`: this is both
the `info` of the returned document and (through the shared `info` dict) the
`info` of the input after the call.  A non-string `title` raises in Python
at `re.sub`; a truthy number or boolean `description` raises at `len`.
Those branches leave the binding unchanged. -/
def fixInfoObj (infoCfg : Json) (info : List (String × Json)) : List (String × Json) :=
  let info1 :=
    match lookupJ info "title" with
    | some (.str t) => setKey info "title" (.str (fixTitle (restrictedWords infoCfg) t))
    | some _ => info
    | none => info
  let dd := (topLookup infoCfg "description").getD (.str "")
  let needsDesc :=
    match lookupJ info1 "description" with
    | none => true
    | some v =>
        !v.truthy ||
          (match v with
           | .str s => decide (s.data.length < 30)
           | .arr xs => decide (xs.length < 30)
           | .obj kvs => decide (kvs.length < 30)
           | _ => false)
  let info2 := if needsDesc && dd.truthy then setKey info1 "description" dd else info1
  let contactCfg := (topLookup infoCfg "contact").getD (.obj [])
  let info3 :=
    if ¬hasKey info2 "contact" ∧ contactCfg.truthy = true then setKey info2 "contact" contactCfg
    else info2
  delKey info3 "x-ms-connector-metadata"

/-- `fix_info_section` from `scripts/swagger_cleaner.py`, parametrised by
the configured `info` section and `connectorMetadata` value.  The shallow
copy shares the `info` dict with the input; the root-level
`x-ms-connector-metadata` binding is added to the copy only. -/
def fix_info_section (infoCfg connectorMeta d : Json) : Json :=
  match d with
  | .obj kvs =>
    match lookupJ kvs "info" with
    | some (.obj info) =>
        let kvs1 := setKey kvs "info" (.obj (fixInfoObj infoCfg info))
        if ¬hasKey kvs1 "x-ms-connector-metadata" ∧ connectorMeta.truthy = true then
          .obj (setKey kvs1 "x-ms-connector-metadata" connectorMeta)
        else .obj kvs1
    | some _ => d
    | none => d
  | _ => d

/-- Value of the input document after `fix_info_section` returns: the
shared `info` dict has been mutated in place, while the possible root-level
`x-ms-connector-metadata` write went to the shallow copy only. -/
def fix_info_section_post (infoCfg connectorMeta d : Json) : Json :=
  match d with
  | .obj kvs =>
    match lookupJ kvs "info" with
    | some (.obj info) => .obj (setKey kvs "info" (.obj (fixInfoObj infoCfg info)))
    | some _ => d
    | none => d
  | _ => d

/-! ### `scripts/certification_packager.py` -/

/-- The seven required top-level fields checked by `validate_config`. -/
def requiredConfigFields : List String :=
  ["publisher", "displayName", "iconBrandColor", "supportEmail",
   "prerequisites", "knownLimitations", "version"]

/-- `validate_config` from `certification_packager.py`, as an acceptance
predicate: `false` means the Python function prints an error and calls
`sys.exit(1)`, `true` means it returns (it only reads the configuration and
never writes to it).  A present non-dict `connectionParameters` raises at
`.items()` and a present non-list `policyTemplates` iterates keys or
characters into the membership tests; both are modelled as rejection and
excluded by the theorem's hypotheses. -/
def validate_config (config : List (String × Json)) : Bool :=
  (requiredConfigFields.all fun f =>
    match lookupJ config f with
    | some v => v.truthy
    | none => false) &&
  (match lookupJ config "connectionParameters" with
   | some (.obj cps) =>
       cps.all fun kv =>
         match kv.2 with
         | .obj pc => hasKey pc "type" && hasKey pc "uiDefinition"
         | _ => false
   | some _ => false
   | none => true) &&
  (match lookupJ config "policyTemplates" with
   | some (.arr ts) =>
       ts.all fun t =>
         match t with
         | .obj tc => hasKey tc "templateId" && hasKey tc "parameters"
         | _ => false
   | some _ => false
   | none => true)

/-! ### Node counts and instrumented walks -/

mutual

/-- Number of nodes of a document: every value (dict, list or leaf) counts
once.  These values are exactly the possible call sites of the Python tree
walks. -/
def nodeCount : Json → Nat
  | .obj kvs => 1 + nodeCountObj kvs
  | .arr xs => 1 + nodeCountArr xs
  | _ => 1

def nodeCountObj : List (String × Json) → Nat
  | [] => 0
  | kv :: rest => nodeCount kv.2 + nodeCountObj rest

def nodeCountArr : List Json → Nat
  | [] => 0
  | x :: rest => nodeCount x + nodeCountArr rest

end

mutual

/-- `remove_anyof_oneof` instrumented with its number of recursive calls:
one per visited value (subtrees dropped with their `anyOf`/`oneOf` keys are
never visited). -/
def raoInstr : Json → Json × Nat
  | .obj kvs => (Json.obj (raoInstrObj kvs).1, 1 + (raoInstrObj kvs).2)
  | .arr xs => (Json.arr (raoInstrArr xs).1, 1 + (raoInstrArr xs).2)
  | v => (v, 1)

def raoInstrObj : List (String × Json) → List (String × Json) × Nat
  | [] => ([], 0)
  | (k, v) :: rest =>
    if k = "anyOf" ∨ k = "oneOf" then raoInstrObj rest
    else (((k, (raoInstr v).1) :: (raoInstrObj rest).1), (raoInstr v).2 + (raoInstrObj rest).2)

def raoInstrArr : List Json → List Json × Nat
  | [] => ([], 0)
  | x :: rest => ((raoInstr x).1 :: (raoInstrArr rest).1, (raoInstr x).2 + (raoInstrArr rest).2)

end

mutual

/-- `extract_refs` instrumented with its number of recursive calls: the walk
descends into every value, so it visits every node exactly once. -/
def extractInstr : Json → List String × Nat
  | .obj kvs =>
    ((match lookupJ kvs "$ref" with
      | some (.str r) =>
         if strStartsWith r "#/definitions/" then [replaceStr r "#/definitions/" ""]
         else []
      | _ => []) ++ (extractInstrObj kvs).1, 1 + (extractInstrObj kvs).2)
  | .arr xs => ((extractInstrArr xs).1, 1 + (extractInstrArr xs).2)
  | _ => ([], 1)

def extractInstrObj : List (String × Json) → List String × Nat
  | [] => ([], 0)
  | kv :: rest => ((extractInstr kv.2).1 ++ (extractInstrObj rest).1,
      (extractInstr kv.2).2 + (extractInstrObj rest).2)

def extractInstrArr : List Json → List String × Nat
  | [] => ([], 0)
  | x :: rest => ((extractInstr x).1 ++ (extractInstrArr rest).1,
      (extractInstr x).2 + (extractInstrArr rest).2)

end

mutual

/-- `remove_description_from_refs` instrumented with its number of recursive
calls: a node carrying `$ref` is rebuilt without visiting its values. -/
def rdfrInstr : Json → Json × Nat
  | .obj kvs =>
    (match lookupJ kvs "$ref" with
     | some r => (.obj (("$ref", r) :: kvs.filter fun kv => strStartsWith kv.1 "x-"), 1)
     | none => (Json.obj (rdfrInstrObj kvs).1, 1 + (rdfrInstrObj kvs).2))
  | .arr xs => (Json.arr (rdfrInstrArr xs).1, 1 + (rdfrInstrArr xs).2)
  | v => (v, 1)

def rdfrInstrObj : List (String × Json) → List (String × Json) × Nat
  | [] => ([], 0)
  | kv :: rest => ((kv.1, (rdfrInstr kv.2).1) :: (rdfrInstrObj rest).1,
      (rdfrInstr kv.2).2 + (rdfrInstrObj rest).2)

def rdfrInstrArr : List Json → List Json × Nat
  | [] => ([], 0)
  | x :: rest => ((rdfrInstr x).1 :: (rdfrInstrArr rest).1,
      (rdfrInstr x).2 + (rdfrInstrArr rest).2)

end

/-! ### `scripts/trigger_augmenter.py` -/

/-- `create_webhook_payload_schema`: the `FulcrumWebhookPayload` schema. -/
def createWebhookPayloadSchema : Json :=
  .obj
    [("type", .str "object"),
     ("properties", .obj
       [("id", .obj
          [("type", .str "string"),
           ("x-ms-summary", .str "Event ID"),
           ("description", .str "The unique identifier of the event")]),
        ("type", .obj
          [("type", .str "string"),
           ("x-ms-summary", .str "Event Type"),
           ("description", .str "The type of event (e.g., record.create, record.update, record.delete, form.create, form.update, form.delete, choice_list.create, choice_list.update, choice_list.delete, classification_set.create, classification_set.update, classification_set.delete)")]),
        ("owner_id", .obj
          [("type", .str "string"),
           ("x-ms-summary", .str "Owner ID"),
           ("description", .str "The ID of the organization that owns this webhook")]),
        ("data", .obj
          [("type", .str "object"),
           ("x-ms-summary", .str "Event Data"),
           ("description", .str "The record or resource data associated with the event")]),
        ("created_at", .obj
          [("type", .str "string"),
           ("format", .str "date-time"),
           ("x-ms-summary", .str "Created At"),
           ("description", .str "The timestamp when the event occurred")])]),
     ("description", .str "Webhook event payload from Fulcrum")]

/-- `param.get("name") in ["url", "callback_url", "webhook_url"]`. -/
def isUrlNameParam (p : List (String × Json)) : Bool :=
  decide (lookupJ p "name" = some (Json.str "url")) ||
    decide (lookupJ p "name" = some (Json.str "callback_url")) ||
    decide (lookupJ p "name" = some (Json.str "webhook_url"))

/-- `param.get("in") == "body" and param.get("name") == "body"`. -/
def isBodyParam (p : List (String × Json)) : Bool :=
  decide (lookupJ p "in" = some (Json.str "body")) &&
    decide (lookupJ p "name" = some (Json.str "body"))

/-- The callback-URL scan of `augment_webhook_endpoint`: walk the parameter
list left to right, augment the first parameter matching either pattern
(breaking out of the loop), and report `none` when no parameter matches.
A non-dict parameter raises in Python at `.get`; here it never matches. -/
def findUrlParam : List Json → Option (List Json)
  | [] => none
  | p :: rest =>
    match p with
    | .obj kvs =>
      if isUrlNameParam kvs then
        let k1 := setKey kvs "x-ms-notification-url" (.bool true)
        let k2 := setKey k1 "x-ms-visibility" (.str "internal")
        let k3 := setKey k2 "x-ms-summary" (.str "Callback URL")
        let k4 :=
          if hasKey k3 "description" then k3
          else setKey k3 "description"
            (.str "The callback URL where Fulcrum will send webhook events")
        some (Json.obj k4 :: rest)
      else if isBodyParam kvs then
        some (Json.obj (setKey kvs "required" (.bool true)) :: rest)
      else
        match findUrlParam rest with
        | some rest' => some (Json.obj kvs :: rest')
        | none => none
    | v =>
      match findUrlParam rest with
      | some rest' => some (v :: rest')
      | none => none

/-- The `$ref` node injected for the webhook payload example. -/
def webhookPayloadRef : Json := .obj [("$ref", .str "#/definitions/FulcrumWebhookPayload")]

/-- The `Location` header object added to the success response. -/
def locationHeader : Json :=
  .obj [("type", .str "string"),
        ("description", .str "URL to manage (update/delete) the created webhook"),
        ("x-ms-summary", .str "Webhook Management URL")]

/-- Mutation of the chosen success response in `augment_webhook_endpoint`:
inject the payload-example property when the response has a dict `schema`
with a dict `properties`, then ensure a `headers` dict and add the
`Location` header.  Spots where Python would raise on non-dict nodes leave
the response unchanged. -/
def augmentDefaultResponse (r : List (String × Json)) : List (String × Json) :=
  let r1 :=
    match lookupJ r "schema" with
    | some (.obj sch) =>
        if hasKey sch "properties" then
          match lookupJ sch "properties" with
          | some (.obj props) =>
              setKey r "schema" (.obj (setKey sch "properties"
                (.obj (setKey props "_webhook_payload_example" webhookPayloadRef))))
          | _ => r
        else r
    | _ => r
  let r2 := if hasKey r1 "headers" then r1 else setKey r1 "headers" (.obj [])
  match lookupJ r2 "headers" with
  | some (.obj hs) => setKey r2 "headers" (.obj (setKey hs "Location" locationHeader))
  | _ => r2

/-- The `responses` step of `augment_webhook_endpoint`:
`responses.get("201") or responses.get("200")` picks the first truthy of the
two responses, and that response object is mutated in place.  A truthy
non-dict response would raise at the `headers` write; modelled unchanged. -/
def augmentResponses (post : List (String × Json)) : List (String × Json) :=
  match lookupJ post "responses" with
  | some (.obj resps) =>
    let pick : Option (String × Json) :=
      match lookupJ resps "201" with
      | some v =>
          if v.truthy then some ("201", v)
          else
            match lookupJ resps "200" with
            | some w => if w.truthy then some ("200", w) else none
            | none => none
      | none =>
          match lookupJ resps "200" with
          | some w => if w.truthy then some ("200", w) else none
          | none => none
    match pick with
    | some (k, .obj r) =>
        setKey post "responses" (.obj (setKey resps k (.obj (augmentDefaultResponse r))))
    | some (_, _) => post
    | none => post
  | some _ => post
  | none => post

/-- The `x-ms-notification-content` value added at the path level. -/
def notificationContent : Json :=
  .obj [("description", .str "Webhook event payload from Fulcrum"),
        ("schema", webhookPayloadRef)]

/-- `augment_webhook_endpoint` from `trigger_augmenter.py`, at the value
level: given the `paths` object, the success flag and the `paths` object
after the call.  The operation dict is mutated before the URL scan, so the
scan-failure case still carries those writes; the missing-endpoint and
missing-post cases return the input untouched.  The returned messages are
print-only and not modelled.  A non-dict path item or post operation raises
in Python; those branches fail with the input unchanged. -/
def augment_webhook_endpoint (paths : List (String × Json)) :
    Bool × List (String × Json) :=
  match lookupJ paths "/v2/webhooks.json" with
  | none => (false, paths)
  | some pathItemJ =>
    match pathItemJ with
    | .obj pathItem =>
      match lookupJ pathItem "post" with
      | none => (false, paths)
      | some postJ =>
        match postJ with
        | .obj post0 =>
          let post1 := setKey post0 "x-ms-trigger" (.str "single")
          let post2 := setKey post1 "x-ms-trigger-hint"
            (.str "To see it work, create, update, or delete a record, form, choice list, or classification set in Fulcrum")
          let post3 := setKey post2 "operationId" (.str "OnFulcrumEvent")
          let post4 := setKey post3 "summary" (.str "When a Fulcrum event occurs")
          let post5 := setKey post4 "description"
            (.str "Triggers when a Fulcrum resource is created, updated, or deleted. Supports events for records, forms, choice lists, and classification sets. Configure the webhook in your Fulcrum organization to specify which events to monitor.")
          let scan :=
            match lookupJ post5 "parameters" with
            | some (.arr ps) => findUrlParam ps
            | _ => none
          match scan with
          | none =>
              (false, setKey paths "/v2/webhooks.json"
                (.obj (setKey pathItem "post" (.obj post5))))
          | some ps' =>
              let post6 := setKey post5 "parameters" (.arr ps')
              let post7 := augmentResponses post6
              let item1 := setKey pathItem "post" (.obj post7)
              let item2 := setKey item1 "x-ms-notification-content" notificationContent
              (true, setKey paths "/v2/webhooks.json" (.obj item2))
        | _ => (false, paths)
    | _ => (false, paths)

/-- `ensure_webhook_delete_endpoint` from `trigger_augmenter.py`, at the
value level: success flag and the `paths` object after the call. -/
def ensure_webhook_delete_endpoint (paths : List (String × Json)) :
    Bool × List (String × Json) :=
  match lookupJ paths "/v2/webhooks/{webhook_id}.json" with
  | none => (false, paths)
  | some itemJ =>
    match itemJ with
    | .obj item =>
      match lookupJ item "delete" with
      | none => (false, paths)
      | some delJ =>
        match delJ with
        | .obj del0 =>
          let d1 := setKey del0 "x-ms-visibility" (.str "internal")
          let d2 := setKey d1 "operationId" (.str "UnsubscribeFromFulcrumEvent")
          let d3 :=
            if hasKey d2 "x-ms-summary" then d2
            else setKey d2 "x-ms-summary" (.str "Delete webhook")
          let d4 :=
            if hasKey d3 "description" then d3
            else setKey d3 "description"
              (.str "Deletes a webhook subscription. This is called automatically by Power Automate when a flow using this trigger is deleted or modified.")
          (true, setKey paths "/v2/webhooks/{webhook_id}.json"
            (.obj (setKey item "delete" (.obj d4))))
        | _ => (false, paths)
    | _ => (false, paths)

/-- The `WebhookRequest` augmentation at the end of `augment_spec`: mark the
nested `webhook.url` property as the notification URL and give the nested
`name` property a default.  Non-dict nodes on the mutated spine raise in
Python; those branches leave the definitions unchanged. -/
def augmentWebhookRequest (defs : List (String × Json)) : List (String × Json) :=
  match lookupJ defs "WebhookRequest" with
  | some (.obj wr) =>
    match lookupJ wr "properties" with
    | some (.obj props) =>
      match lookupJ props "webhook" with
      | some (.obj wh) =>
        match lookupJ wh "properties" with
        | some (.obj wprops) =>
          let wprops1 :=
            match lookupJ wprops "url" with
            | some (.obj url0) =>
                let u1 := setKey url0 "x-ms-notification-url" (.bool true)
                let u2 := setKey u1 "x-ms-visibility" (.str "internal")
                let u3 :=
                  if hasKey u2 "x-ms-summary" then u2
                  else setKey u2 "x-ms-summary" (.str "Callback URL")
                setKey wprops "url" (.obj u3)
            | some _ => wprops
            | none => wprops
          let wprops2 :=
            match lookupJ wprops1 "name" with
            | some (.obj n0) =>
                let n1 := setKey n0 "default" (.str "Power Platform Trigger")
                let n2 :=
                  if hasKey n1 "x-ms-summary" then n1
                  else setKey n1 "x-ms-summary" (.str "Webhook Name")
                setKey wprops1 "name" (.obj n2)
            | some _ => wprops1
            | none => wprops1
          setKey defs "WebhookRequest" (.obj (setKey wr "properties"
            (.obj (setKey props "webhook" (.obj (setKey wh "properties" (.obj wprops2)))))))
        | _ => defs
      | _ => defs
    | _ => defs
  | _ => defs

/-- `augment_spec` from `trigger_augmenter.py`: the success flag and the
document after the call (the function mutates its argument in place; the
messages and the Swagger-version warning are print-only and not modelled).
A missing `paths` key fails immediately; a failing delete-endpoint step only
appends a warning and never affects the flag; on the success path the
`FulcrumWebhookPayload` schema is always (re)written into `definitions`. -/
def augment_spec (d : Json) : Bool × Json :=
  match d with
  | .obj kvs =>
    match lookupJ kvs "paths" with
    | some (.obj paths) =>
      let r1 := augment_webhook_endpoint paths
      if r1.1 then
        let r2 := ensure_webhook_delete_endpoint r1.2
        let kvs1 := setKey kvs "paths" (.obj r2.2)
        let kvs2 :=
          if hasKey kvs1 "definitions" then kvs1
          else setKey kvs1 "definitions" (.obj [])
        match lookupJ kvs2 "definitions" with
        | some (.obj defs) =>
            let defs1 := setKey defs "FulcrumWebhookPayload" createWebhookPayloadSchema
            let defs2 := augmentWebhookRequest defs1
            (true, .obj (setKey kvs2 "definitions" (.obj defs2)))
        | _ => (true, .obj kvs1)
      else (false, .obj (setKey kvs "paths" (.obj r1.2)))
    | some _ => (false, d)
    | none => (false, d)
  | _ => (false, d)

/-! ### Claim-side predicates and concrete documents -/

/-- Is this value a dict? -/
def Json.isObj : Json → Bool
  | .obj _ => true
  | _ => false

mutual

/-- No dict anywhere in the value carries an `anyOf` or `oneOf` key. -/
def noBannedKeys : Json → Bool
  | .obj kvs => nbkObj kvs
  | .arr xs => nbkArr xs
  | _ => true

def nbkObj : List (String × Json) → Bool
  | [] => true
  | (k, v) :: rest =>
    !(k == "anyOf" || k == "oneOf") && noBannedKeys v && nbkObj rest

def nbkArr : List Json → Bool
  | [] => true
  | x :: rest => noBannedKeys x && nbkArr rest

end

/-- Scan for a whole-word occurrence: does `\b w \b` (case-insensitive) match
at some position of the list, `prev` being the character before it? -/
def containsWordAux (w : List Char) (prev : Option Char) : List Char → Bool
  | [] => false
  | c :: rest => wordMatchAt w prev (c :: rest) || containsWordAux w (some c) rest

/-- Does `t` contain the word `w` as a case-insensitive whole word (the
property `re.sub(rf'\b{w}\b', ...)` keys on)? -/
def containsWordCI (w t : String) : Bool := containsWordAux w.data none t.data

/-- No two consecutive characters are both whitespace. -/
def noTwoWs : List Char → Bool
  | [] => true
  | [_] => true
  | a :: b :: rest => !(isPySpace a && isPySpace b) && noTwoWs (b :: rest)

/-- Claim-side success condition of `augment_spec`: the `paths` table has a
`/v2/webhooks.json` entry whose `post` operation carries a parameter that is
either named `url`/`callback_url`/`webhook_url` or is the body parameter
named `body`. -/
def webhookTriggerCondition (paths : List (String × Json)) : Bool :=
  match lookupJ paths "/v2/webhooks.json" with
  | some (.obj item) =>
    match lookupJ item "post" with
    | some (.obj post) =>
      match lookupJ post "parameters" with
      | some (.arr ps) =>
          ps.any fun p =>
            match p with
            | .obj pk => isUrlNameParam pk || isBodyParam pk
            | _ => false
      | _ => false
    | _ => false
  | _ => false

/-- Shape of a response object under which the Python mutations of
`augment_webhook_endpoint` cannot raise: `schema`, its `properties` and
`headers` are dicts when present. -/
def responseWF (r : List (String × Json)) : Bool :=
  (match lookupJ r "schema" with
   | none => true
   | some (.obj sch) =>
       (match lookupJ sch "properties" with
        | none => true
        | some (.obj _) => true
        | some _ => false)
   | some _ => false) &&
  (match lookupJ r "headers" with
   | none => true
   | some (.obj _) => true
   | some _ => false)

/-- Shape of the `paths` table under which `augment_spec` completes without
a Python exception: the two webhook path items, their operations, parameter
lists and responses have the dict/list shapes the mutations subscript. -/
def webhookEndpointWF (paths : List (String × Json)) : Bool :=
  (match lookupJ paths "/v2/webhooks.json" with
   | none => true
   | some (.obj item) =>
     (match lookupJ item "post" with
      | none => true
      | some (.obj post) =>
        (match lookupJ post "parameters" with
         | none => true
         | some (.arr ps) => ps.all Json.isObj
         | some _ => false) &&
        (match lookupJ post "responses" with
         | none => true
         | some (.obj resps) =>
             resps.all fun r =>
               match r.2 with
               | .obj ro => responseWF ro
               | v => !v.truthy
         | some _ => false)
      | some _ => false)
   | some _ => false) &&
  (match lookupJ paths "/v2/webhooks/{webhook_id}.json" with
   | none => true
   | some (.obj item) =>
     (match lookupJ item "delete" with
      | none => true
      | some (.obj _) => true
      | some _ => false)
   | some _ => false)

/-- Condition under which the two copies of `enhance_endpoints` agree: every
HTTP-method operation of every path either is not a dict (both copies then
leave it alone in this model) or has a missing-or-falsy `description` and no
`parameters` key. -/
def enhanceAgreeCond (d : Json) : Bool :=
  match d with
  | .obj kvs =>
    match lookupJ kvs "paths" with
    | some (.obj paths) =>
        paths.all fun pi =>
          match pi.2 with
          | .obj item =>
              item.all fun e =>
                !isHttpMethod e.1 ||
                  (match e.2 with
                   | .obj op =>
                       (match lookupJ op "description" with
                        | none => true
                        | some v => !v.truthy) && !hasKey op "parameters"
                   | _ => true)
          | _ => true
    | _ => true
  | _ => true

/-- Claim-side relation between an operation before and after
`keep_only_success_responses`: when both are dicts, everything except the
`responses` binding is unchanged, and a present `responses` dict is replaced
by one holding exactly its bindings whose status-code key starts with
`"2"`. -/
def kosrOpSpec (op op' : Json) : Prop :=
  ∀ o, op = Json.obj o →
    ∃ o', op' = Json.obj o' ∧
      delKey o' "responses" = delKey o "responses" ∧
      ∀ rs, lookupJ o "responses" = some (.obj rs) →
        ∃ rs', lookupJ o' "responses" = some (.obj rs') ∧
          (∀ e, e ∈ rs' → strStartsWith e.1 "2" = true ∧ e ∈ rs) ∧
          (∀ e, e ∈ rs → strStartsWith e.1 "2" = true → e ∈ rs')

/-! ### Lemmas about `remove_anyof_oneof` -/

mutual

theorem noBanned_rao : ∀ v, noBannedKeys (remove_anyof_oneof v) = true
  | .null => rfl
  | .bool _ => rfl
  | .num _ => rfl
  | .str _ => rfl
  | .arr xs => by simp [remove_anyof_oneof, noBannedKeys, noBanned_raoArr xs]
  | .obj kvs => by simp [remove_anyof_oneof, noBannedKeys, noBanned_raoObj kvs]

theorem noBanned_raoObj : ∀ l, nbkObj (raoObj l) = true
  | [] => rfl
  | (k, v) :: rest => by
      by_cases h : k = "anyOf" ∨ k = "oneOf"
      · simp [raoObj, h, noBanned_raoObj rest]
      · push_neg at h
        simp [raoObj, h.1, h.2, nbkObj, noBanned_rao v, noBanned_raoObj rest]

theorem noBanned_raoArr : ∀ l, nbkArr (raoArr l) = true
  | [] => rfl
  | x :: rest => by simp [raoArr, nbkArr, noBanned_rao x, noBanned_raoArr rest]

end

mutual

theorem rao_fixed : ∀ v, noBannedKeys v = true → remove_anyof_oneof v = v
  | .null, _ => rfl
  | .bool _, _ => rfl
  | .num _, _ => rfl
  | .str _, _ => rfl
  | .arr xs, h => by
      simp only [noBannedKeys] at h
      simp [remove_anyof_oneof, raoArr_fixed xs h]
  | .obj kvs, h => by
      simp only [noBannedKeys] at h
      simp [remove_anyof_oneof, raoObj_fixed kvs h]

theorem raoObj_fixed : ∀ l, nbkObj l = true → raoObj l = l
  | [], _ => rfl
  | (k, v) :: rest, h => by
      simp only [nbkObj, Bool.and_eq_true, Bool.not_eq_true', Bool.or_eq_false_iff,
        beq_eq_false_iff_ne] at h
      have hk : ¬(k = "anyOf" ∨ k = "oneOf") := by
        push_neg
        exact h.1.1
      simp [raoObj, hk, rao_fixed v h.1.2, raoObj_fixed rest h.2]

theorem raoArr_fixed : ∀ l, nbkArr l = true → raoArr l = l
  | [], _ => rfl
  | x :: rest, h => by
      simp only [nbkArr, Bool.and_eq_true] at h
      simp [raoArr, rao_fixed x h.1, raoArr_fixed rest h.2]

end

/-! ### Lemmas about the instrumented walks -/

mutual

theorem raoInstr_fst : ∀ v, (raoInstr v).1 = remove_anyof_oneof v
  | .null => rfl
  | .bool _ => rfl
  | .num _ => rfl
  | .str _ => rfl
  | .arr xs => by simp [raoInstr, remove_anyof_oneof, raoInstrArr_fst xs]
  | .obj kvs => by simp [raoInstr, remove_anyof_oneof, raoInstrObj_fst kvs]

theorem raoInstrObj_fst : ∀ l, (raoInstrObj l).1 = raoObj l
  | [] => rfl
  | (k, v) :: rest => by
      by_cases h : k = "anyOf" ∨ k = "oneOf" <;>
        simp [raoInstrObj, raoObj, h, raoInstr_fst v, raoInstrObj_fst rest]

theorem raoInstrArr_fst : ∀ l, (raoInstrArr l).1 = raoArr l
  | [] => rfl
  | x :: rest => by simp [raoInstrArr, raoArr, raoInstr_fst x, raoInstrArr_fst rest]

end

mutual

theorem raoInstr_le : ∀ v, (raoInstr v).2 ≤ nodeCount v
  | .null => le_refl _
  | .bool _ => le_refl _
  | .num _ => le_refl _
  | .str _ => le_refl _
  | .arr xs => by
      simp only [raoInstr, nodeCount]
      exact Nat.add_le_add_left (raoInstrArr_le xs) 1
  | .obj kvs => by
      simp only [raoInstr, nodeCount]
      exact Nat.add_le_add_left (raoInstrObj_le kvs) 1

theorem raoInstrObj_le : ∀ l, (raoInstrObj l).2 ≤ nodeCountObj l
  | [] => le_refl _
  | (k, v) :: rest => by
      by_cases h : k = "anyOf" ∨ k = "oneOf"
      · simp only [raoInstrObj, if_pos h, nodeCountObj]
        exact le_trans (raoInstrObj_le rest) (Nat.le_add_left _ _)
      · simp only [raoInstrObj, if_neg h, nodeCountObj]
        exact Nat.add_le_add (raoInstr_le v) (raoInstrObj_le rest)

theorem raoInstrArr_le : ∀ l, (raoInstrArr l).2 ≤ nodeCountArr l
  | [] => le_refl _
  | x :: rest => by
      simp only [raoInstrArr, nodeCountArr]
      exact Nat.add_le_add (raoInstr_le x) (raoInstrArr_le rest)

end

mutual

theorem extractInstr_fst : ∀ v, (extractInstr v).1 = extractRefs v
  | .null => rfl
  | .bool _ => rfl
  | .num _ => rfl
  | .str _ => rfl
  | .arr xs => by simp [extractInstr, extractRefs, extractInstrArr_fst xs]
  | .obj kvs => by simp [extractInstr, extractRefs, extractInstrObj_fst kvs]

theorem extractInstrObj_fst : ∀ l, (extractInstrObj l).1 = extractRefsObj l
  | [] => rfl
  | kv :: rest => by
      simp [extractInstrObj, extractRefsObj, extractInstr_fst kv.2, extractInstrObj_fst rest]

theorem extractInstrArr_fst : ∀ l, (extractInstrArr l).1 = extractRefsArr l
  | [] => rfl
  | x :: rest => by
      simp [extractInstrArr, extractRefsArr, extractInstr_fst x, extractInstrArr_fst rest]

end

mutual

theorem extractInstr_count : ∀ v, (extractInstr v).2 = nodeCount v
  | .null => rfl
  | .bool _ => rfl
  | .num _ => rfl
  | .str _ => rfl
  | .arr xs => by simp [extractInstr, nodeCount, extractInstrArr_count xs]
  | .obj kvs => by simp [extractInstr, nodeCount, extractInstrObj_count kvs]

theorem extractInstrObj_count : ∀ l, (extractInstrObj l).2 = nodeCountObj l
  | [] => rfl
  | kv :: rest => by
      simp [extractInstrObj, nodeCountObj, extractInstr_count kv.2, extractInstrObj_count rest]

theorem extractInstrArr_count : ∀ l, (extractInstrArr l).2 = nodeCountArr l
  | [] => rfl
  | x :: rest => by
      simp [extractInstrArr, nodeCountArr, extractInstr_count x, extractInstrArr_count rest]

end

mutual

theorem rdfrInstr_fst : ∀ v, (rdfrInstr v).1 = remove_description_from_refs v
  | .null => rfl
  | .bool _ => rfl
  | .num _ => rfl
  | .str _ => rfl
  | .arr xs => by simp [rdfrInstr, remove_description_from_refs, rdfrInstrArr_fst xs]
  | .obj kvs => by
      cases h : lookupJ kvs "$ref" <;>
        simp [rdfrInstr, remove_description_from_refs, h, rdfrInstrObj_fst kvs]

theorem rdfrInstrObj_fst : ∀ l, (rdfrInstrObj l).1 = rdfrObj l
  | [] => rfl
  | kv :: rest => by
      simp [rdfrInstrObj, rdfrObj, rdfrInstr_fst kv.2, rdfrInstrObj_fst rest]

theorem rdfrInstrArr_fst : ∀ l, (rdfrInstrArr l).1 = rdfrArr l
  | [] => rfl
  | x :: rest => by
      simp [rdfrInstrArr, rdfrArr, rdfrInstr_fst x, rdfrInstrArr_fst rest]

end

mutual

theorem rdfrInstr_le : ∀ v, (rdfrInstr v).2 ≤ nodeCount v
  | .null => le_refl _
  | .bool _ => le_refl _
  | .num _ => le_refl _
  | .str _ => le_refl _
  | .arr xs => by
      simp only [rdfrInstr, nodeCount]
      exact Nat.add_le_add_left (rdfrInstrArr_le xs) 1
  | .obj kvs => by
      cases h : lookupJ kvs "$ref"
      · simp only [rdfrInstr, h, nodeCount]
        exact Nat.add_le_add_left (rdfrInstrObj_le kvs) 1
      · simp only [rdfrInstr, h, nodeCount]
        exact Nat.le_add_right 1 _

theorem rdfrInstrObj_le : ∀ l, (rdfrInstrObj l).2 ≤ nodeCountObj l
  | [] => le_refl _
  | kv :: rest => by
      simp only [rdfrInstrObj, nodeCountObj]
      exact Nat.add_le_add (rdfrInstr_le kv.2) (rdfrInstrObj_le rest)

theorem rdfrInstrArr_le : ∀ l, (rdfrInstrArr l).2 ≤ nodeCountArr l
  | [] => le_refl _
  | x :: rest => by
      simp only [rdfrInstrArr, nodeCountArr]
      exact Nat.add_le_add (rdfrInstr_le x) (rdfrInstrArr_le rest)

end

/-! ### Claim theorems -/

/-- Claim C6: `remove_anyof_oneof` is idempotent — applying it twice equals
applying it once — and its result contains no `anyOf` or `oneOf` key at any
depth (the two copies of the cleaner share this function verbatim). -/
theorem c6_remove_anyof_oneof_idempotent :
    ∀ v : Json,
      remove_anyof_oneof (remove_anyof_oneof v) = remove_anyof_oneof v ∧
      noBannedKeys (remove_anyof_oneof v) = true :=
  fun v => ⟨rao_fixed _ (noBanned_rao v), noBanned_rao v⟩

/-- Claim C8: the three recursive tree walks are total functions of the
document (they are structurally recursive definitions here, so they
terminate on every finite document), and their instrumented versions show
each is a single pass: the number of recursive calls of `extract_refs` is
exactly the node count, and those of `remove_anyof_oneof` and
`remove_description_from_refs` never exceed it (they visit each node at most
once, skipping subtrees they drop or copy wholesale). -/
theorem c8_single_pass :
    ∀ v : Json,
      (raoInstr v).1 = remove_anyof_oneof v ∧ (raoInstr v).2 ≤ nodeCount v ∧
      (extractInstr v).1 = extractRefs v ∧ (extractInstr v).2 = nodeCount v ∧
      (rdfrInstr v).1 = remove_description_from_refs v ∧ (rdfrInstr v).2 ≤ nodeCount v :=
  fun v =>
    ⟨raoInstr_fst v, raoInstr_le v, extractInstr_fst v, extractInstr_count v,
      rdfrInstr_fst v, rdfrInstr_le v⟩

/-! ### Frame lemmas for the in-place transformations -/

theorem topLookup_setKey_ne (kvs : List (String × Json)) (sec k : String) (v : Json)
    (h : k ≠ sec) : topLookup (.obj (setKey kvs sec v)) k = topLookup (.obj kvs) k := by
  simp [topLookup, lookupJ_setKey_ne _ _ _ _ h]

theorem topKeys_setKey_of_hasKey (kvs : List (String × Json)) (sec : String) (v : Json)
    (h : hasKey kvs sec = true) : topKeys (.obj (setKey kvs sec v)) = topKeys (.obj kvs) := by
  simp [topKeys, map_fst_setKey_of_hasKey _ _ _ h]

theorem enhance_post_frame (d : Json) (k : String) (h : k ≠ "paths") :
    topLookup (enhance_endpoints_post d) k = topLookup d k := by
  cases d <;> try rfl
  case obj kvs =>
    cases hp : lookupJ kvs "paths" with
    | none => simp [enhance_endpoints_post, enhance_endpoints, hp]
    | some v =>
        cases v <;> simp [enhance_endpoints_post, enhance_endpoints, hp] <;>
          try rfl
        exact topLookup_setKey_ne kvs "paths" k _ h

theorem enhance_post_keys (d : Json) :
    topKeys (enhance_endpoints_post d) = topKeys d := by
  cases d <;> try rfl
  case obj kvs =>
    cases hp : lookupJ kvs "paths" with
    | none => simp [enhance_endpoints_post, enhance_endpoints, hp]
    | some v =>
        cases v <;> simp [enhance_endpoints_post, enhance_endpoints, hp] <;> try rfl
        exact topKeys_setKey_of_hasKey kvs "paths" _ (by simp [hasKey, hp])

theorem kosr_post_frame (d : Json) (k : String) (h : k ≠ "paths") :
    topLookup (keep_only_success_responses_post d) k = topLookup d k := by
  cases d <;> try rfl
  case obj kvs =>
    cases hp : lookupJ kvs "paths" with
    | none => simp [keep_only_success_responses_post, keep_only_success_responses, hp]
    | some v =>
        cases v <;> simp [keep_only_success_responses_post, keep_only_success_responses, hp] <;>
          try rfl
        exact topLookup_setKey_ne kvs "paths" k _ h

theorem kosr_post_keys (d : Json) :
    topKeys (keep_only_success_responses_post d) = topKeys d := by
  cases d <;> try rfl
  case obj kvs =>
    cases hp : lookupJ kvs "paths" with
    | none => simp [keep_only_success_responses_post, keep_only_success_responses, hp]
    | some v =>
        cases v <;> simp [keep_only_success_responses_post, keep_only_success_responses, hp] <;>
          try rfl
        exact topKeys_setKey_of_hasKey kvs "paths" _ (by simp [hasKey, hp])

theorem rcp_post_frame (ptr d : Json) (k : String) (h : k ≠ "paths") :
    topLookup (remove_configured_parameters_post ptr d) k = topLookup d k := by
  cases d <;> try rfl
  case obj kvs =>
    cases hp : lookupJ kvs "paths" with
    | none => simp [remove_configured_parameters_post, remove_configured_parameters, hp]
    | some v =>
        cases v <;>
          simp only [remove_configured_parameters_post, remove_configured_parameters, hp] <;>
          try rfl
        by_cases ht : ptr.truthy = true
        · cases ptr <;> simp [ht] <;> try rfl
          exact topLookup_setKey_ne kvs "paths" k _ h
        · simp [Bool.not_eq_true] at ht
          simp [ht]

theorem rcp_post_keys (ptr d : Json) :
    topKeys (remove_configured_parameters_post ptr d) = topKeys d := by
  cases d <;> try rfl
  case obj kvs =>
    cases hp : lookupJ kvs "paths" with
    | none => simp [remove_configured_parameters_post, remove_configured_parameters, hp]
    | some v =>
        cases v <;>
          simp only [remove_configured_parameters_post, remove_configured_parameters, hp] <;>
          try rfl
        by_cases ht : ptr.truthy = true
        · cases ptr <;> simp [ht] <;> try rfl
          exact topKeys_setKey_of_hasKey kvs "paths" _ (by simp [hasKey, hp])
        · simp [Bool.not_eq_true] at ht
          simp [ht]

theorem fix_post_frame (infoCfg connectorMeta d : Json) (k : String) (h : k ≠ "info") :
    topLookup (fix_info_section_post infoCfg connectorMeta d) k = topLookup d k := by
  cases d <;> try rfl
  case obj kvs =>
    cases hp : lookupJ kvs "info" with
    | none => simp [fix_info_section_post, hp]
    | some v =>
        cases v <;> simp [fix_info_section_post, hp] <;> try rfl
        exact topLookup_setKey_ne kvs "info" k _ h

theorem fix_post_keys (infoCfg connectorMeta d : Json) :
    topKeys (fix_info_section_post infoCfg connectorMeta d) = topKeys d := by
  cases d <;> try rfl
  case obj kvs =>
    cases hp : lookupJ kvs "info" with
    | none => simp [fix_info_section_post, hp]
    | some v =>
        cases v <;> simp [fix_info_section_post, hp] <;> try rfl
        exact topKeys_setKey_of_hasKey kvs "info" _ (by simp [hasKey, hp])

/-- Claim C1, amended.  The four transformations are pure functions of the
input value at the level of their returned document, but they do not leave
the input document unchanged: each mutates the nested nodes shared with its
shallow copy, so that after the call the input equals the returned document
(for `enhance_endpoints`, `keep_only_success_responses` and
`remove_configured_parameters`; for `fix_info_section` it equals the result
minus the possibly-added root `x-ms-connector-metadata` binding — the
`..._post` definitions).  What survives of the claim: every top-level
binding of the input outside the rewritten section (`paths`, resp. `info`)
is unchanged by the call, and the input's top-level key list is preserved. -/
theorem c1_frame_amended (infoCfg connectorMeta ptr d : Json) (k : String)
    (hp : k ≠ "paths") (hi : k ≠ "info") :
    topLookup (enhance_endpoints_post d) k = topLookup d k ∧
    topLookup (keep_only_success_responses_post d) k = topLookup d k ∧
    topLookup (remove_configured_parameters_post ptr d) k = topLookup d k ∧
    topLookup (fix_info_section_post infoCfg connectorMeta d) k = topLookup d k ∧
    topKeys (enhance_endpoints_post d) = topKeys d ∧
    topKeys (keep_only_success_responses_post d) = topKeys d ∧
    topKeys (remove_configured_parameters_post ptr d) = topKeys d ∧
    topKeys (fix_info_section_post infoCfg connectorMeta d) = topKeys d :=
  ⟨enhance_post_frame d k hp, kosr_post_frame d k hp, rcp_post_frame ptr d k hp,
    fix_post_frame infoCfg connectorMeta d k hi, enhance_post_keys d, kosr_post_keys d,
    rcp_post_keys ptr d, fix_post_keys infoCfg connectorMeta d⟩

/-- Witness for C1's amended frame theorem at a concrete document and key. -/
theorem c1_frame_amended_witness :
    topLookup (enhance_endpoints_post
      (Json.obj [("swagger", Json.str "2.0"),
                 ("paths", Json.obj [("/a", Json.obj [("get", Json.obj [])])])]))
      "swagger" =
      topLookup
        (Json.obj [("swagger", Json.str "2.0"),
                   ("paths", Json.obj [("/a", Json.obj [("get", Json.obj [])])])])
        "swagger" :=
  (c1_frame_amended (Json.obj []) (Json.arr []) (Json.arr [])
    (Json.obj [("swagger", Json.str "2.0"),
               ("paths", Json.obj [("/a", Json.obj [("get", Json.obj [])])])])
    "swagger" (by decide) (by decide)).1

/-- Counterexample to claim C1 as stated: calling `enhance_endpoints` on a
document with one bare `get` operation writes a `description` into the
shared operation dict, so after the call the input document does not equal
its value from before the call. -/
theorem c1_counterexample :
    enhance_endpoints_post
        (Json.obj [("paths", Json.obj [("/a", Json.obj [("get", Json.obj [])])])]) ≠
      Json.obj [("paths", Json.obj [("/a", Json.obj [("get", Json.obj [])])])] := by
  decide

/-! ### The two copies of `enhance_endpoints` -/

theorem lookupJ_capitalizeOperationId_ne (l : List (String × Json)) (k : String)
    (h : k ≠ "operationId") : lookupJ (capitalizeOperationId l) k = lookupJ l k := by
  unfold capitalizeOperationId
  cases ho : lookupJ l "operationId" with
  | none => rfl
  | some v =>
      cases v <;> try rfl
      case str s =>
        by_cases hs : s.data.isEmpty <;> simp [hs, lookupJ_setKey_ne _ _ _ _ h]

theorem enhanceOp_agree (path m : String) (o : List (String × Json))
    (hdesc : ∀ v, lookupJ o "description" = some v → v.truthy = false)
    (hpar : hasKey o "parameters" = false) :
    enhanceOpScripts path m (.obj o) = enhanceOpSrc path m (.obj o) := by
  have hpn : lookupJ o "parameters" = none := by
    cases hx : lookupJ o "parameters" with
    | none => rfl
    | some v => simp [hasKey, hx] at hpar
  have hp2 : lookupJ (capitalizeOperationId
      (setKey o "description" (.str (endpointDescription path m)))) "parameters" = none := by
    rw [lookupJ_capitalizeOperationId_ne _ _ (by decide),
        lookupJ_setKey_ne _ _ _ _ (by decide), hpn]
  cases hd : lookupJ o "description" with
  | none => simp [enhanceOpScripts, enhanceOpSrc, hd, hp2]
  | some v => simp [enhanceOpScripts, enhanceOpSrc, hd, hdesc v hd, hp2]

/-- Claim C10, amended: the two copies of `enhance_endpoints` agree on every
document whose HTTP-method operations all have a missing-or-falsy
`description` and no `parameters` key (the scripts copy only adds a missing
description and additionally annotates parameters; everything else is
identical). -/
theorem c10_enhance_copies_agree (d : Json) (h : enhanceAgreeCond d = true) :
    enhance_endpoints d = enhance_endpoints_src d := by
  cases d <;> try rfl
  case obj kvs =>
    cases hp : lookupJ kvs "paths" with
    | none => simp [enhance_endpoints, enhance_endpoints_src, hp]
    | some v =>
        cases v <;> try simp [enhance_endpoints, enhance_endpoints_src, hp]
        case obj paths =>
          simp only [enhanceAgreeCond, hp, List.all_eq_true] at h
          refine congrArg (fun x => setKey kvs "paths" (Json.obj x)) ?_
          apply List.map_congr_left
          intro pi hpi
          have hitem := h pi hpi
          cases hv : pi.2 with
          | obj item =>
              simp only [hv, List.all_eq_true] at hitem
              simp only [enhanceItemScripts, enhanceItemSrc]
              refine congrArg (fun x => (pi.1, Json.obj x)) ?_
              apply List.map_congr_left
              intro e he
              have hop := hitem e he
              by_cases hm : isHttpMethod e.1 = true
              · simp only [hm, Bool.not_true, Bool.false_or] at hop
                simp only [hm, if_true]
                cases hw : e.2 with
                | obj op =>
                    simp only [hw, Bool.and_eq_true, Bool.not_eq_true'] at hop
                    refine congrArg _ (enhanceOp_agree pi.1 e.1 op ?_ hop.2)
                    intro v hv2
                    have := hop.1
                    rw [hv2] at this
                    simpa using this
                | null => rfl
                | bool b => rfl
                | num n => rfl
                | str s => rfl
                | arr xs => rfl
              · simp [hm]
          | null => simp [hv, enhanceItemScripts, enhanceItemSrc]
          | bool b => simp [hv, enhanceItemScripts, enhanceItemSrc]
          | num n => simp [hv, enhanceItemScripts, enhanceItemSrc]
          | str s => simp [hv, enhanceItemScripts, enhanceItemSrc]
          | arr xs => simp [hv, enhanceItemScripts, enhanceItemSrc]

/-- Witness for C10's amended theorem: on a document whose operation lacks a
description and parameters, the two copies produce the same output. -/
theorem c10_enhance_copies_agree_witness :
    enhance_endpoints
        (Json.obj [("paths", Json.obj
          [("/a", Json.obj [("get", Json.obj [("operationId", Json.str "getA")])])])]) =
      enhance_endpoints_src
        (Json.obj [("paths", Json.obj
          [("/a", Json.obj [("get", Json.obj [("operationId", Json.str "getA")])])])]) :=
  c10_enhance_copies_agree _ (by decide)

/-- Counterexample to claim C10 as stated: on an operation that already has
a truthy description, the scripts copy keeps it while the root copy
overwrites it, so the two outputs differ. -/
theorem c10_counterexample :
    enhance_endpoints
        (Json.obj [("paths", Json.obj
          [("/a", Json.obj [("get", Json.obj [("description", Json.str "foo")])])])]) ≠
      enhance_endpoints_src
        (Json.obj [("paths", Json.obj
          [("/a", Json.obj [("get", Json.obj [("description", Json.str "foo")])])])]) := by
  decide

/-! ### `keep_only_success_responses` -/

theorem kosrOp_spec (op : Json) : kosrOpSpec op (kosrOp op) := by
  intro o ho
  subst ho
  cases hr : lookupJ o "responses" with
  | none =>
      refine ⟨o, by simp [kosrOp, hr], rfl, ?_⟩
      intro rs hrs
      cases hrs
  | some v =>
      cases v with
      | obj rs0 =>
          refine ⟨setKey o "responses" (.obj (rs0.filter fun r => strStartsWith r.1 "2")),
            by simp [kosrOp, hr], delKey_setKey_self o "responses" _, ?_⟩
          intro rs hrs
          have hrs0 : rs0 = rs := by
            injection hrs with h1
            injection h1
          subst hrs0
          refine ⟨rs0.filter fun r => strStartsWith r.1 "2",
            lookupJ_setKey_self _ _ _, ?_, ?_⟩
          · intro e he
            rw [List.mem_filter] at he
            exact ⟨he.2, he.1⟩
          · intro e he hs
            rw [List.mem_filter]
            exact ⟨he, hs⟩
      | null =>
          refine ⟨o, by simp [kosrOp, hr], rfl, ?_⟩
          intro rs hrs
          simp at hrs
      | bool b =>
          refine ⟨o, by simp [kosrOp, hr], rfl, ?_⟩
          intro rs hrs
          simp at hrs
      | num n =>
          refine ⟨o, by simp [kosrOp, hr], rfl, ?_⟩
          intro rs hrs
          simp at hrs
      | str s =>
          refine ⟨o, by simp [kosrOp, hr], rfl, ?_⟩
          intro rs hrs
          simp at hrs
      | arr xs =>
          refine ⟨o, by simp [kosrOp, hr], rfl, ?_⟩
          intro rs hrs
          simp at hrs

/-- Claim C9: after `keep_only_success_responses`, the `paths` table has the
same shape path by path and entry by entry; for every HTTP-method operation
with a `responses` table, every remaining status-code key starts with `"2"`
(and every original success binding survives), while all other fields of the
operation are unchanged; non-method entries and non-method fields are left
untouched. -/
theorem c9_keep_only_success (d : Json) (kvs paths : List (String × Json))
    (hd : d = Json.obj kvs)
    (hpaths : lookupJ kvs "paths" = some (Json.obj paths)) :
    ∃ paths', topLookup (keep_only_success_responses d) "paths" = some (Json.obj paths') ∧
      List.Forall₂ (fun pi pi' => pi.1 = pi'.1 ∧
        ∀ item, pi.2 = Json.obj item →
          ∃ item', pi'.2 = Json.obj item' ∧
            List.Forall₂ (fun e e' => e.1 = e'.1 ∧
              (isHttpMethod e.1 = true → kosrOpSpec e.2 e'.2) ∧
              (isHttpMethod e.1 = false → e'.2 = e.2)) item item') paths paths' := by
  subst hd
  refine ⟨paths.map fun pi => (pi.1, kosrItem pi.2), ?_, ?_⟩
  · simp [keep_only_success_responses, hpaths, topLookup, lookupJ_setKey_self]
  · rw [List.forall₂_map_right_iff, List.forall₂_same]
    intro pi hpi
    refine ⟨rfl, ?_⟩
    intro item hitem
    rw [hitem]
    refine ⟨item.map fun e => (e.1, if isHttpMethod e.1 then kosrOp e.2 else e.2),
      by simp [kosrItem], ?_⟩
    rw [List.forall₂_map_right_iff, List.forall₂_same]
    intro e he
    refine ⟨rfl, ?_, ?_⟩
    · intro hm
      simp only [hm, if_true]
      exact kosrOp_spec e.2
    · intro hm
      simp [hm]

/-- Witness for C9 at a concrete document with one success and one error
response. -/
theorem c9_keep_only_success_witness :
    ∃ paths', topLookup (keep_only_success_responses
        (Json.obj [("paths", Json.obj [("/a", Json.obj [("get", Json.obj
          [("responses", Json.obj [("200", Json.obj []), ("404", Json.obj [])])])])])]))
      "paths" = some (Json.obj paths') ∧
      List.Forall₂ (fun pi pi' => pi.1 = pi'.1 ∧
        ∀ item, pi.2 = Json.obj item →
          ∃ item', pi'.2 = Json.obj item' ∧
            List.Forall₂ (fun e e' => e.1 = e'.1 ∧
              (isHttpMethod e.1 = true → kosrOpSpec e.2 e'.2) ∧
              (isHttpMethod e.1 = false → e'.2 = e.2)) item item')
        [("/a", Json.obj [("get", Json.obj
          [("responses", Json.obj [("200", Json.obj []), ("404", Json.obj [])])])])]
        paths' :=
  c9_keep_only_success _ _ _ rfl rfl

/-! ### `remove_unused_models` -/

mutual

theorem extractRefs_eq : ∀ v, extractRefs v = (refStrings v).filterMap fun r =>
    if strStartsWith r "#/definitions/" = true
    then some (replaceStr r "#/definitions/" "") else none
  | .null => rfl
  | .bool _ => rfl
  | .num _ => rfl
  | .str _ => rfl
  | .arr xs => by
      simp only [extractRefs, refStrings]
      exact extractRefsArr_eq xs
  | .obj kvs => by
      simp only [extractRefs, refStrings, List.filterMap_append]
      rw [extractRefsObj_eq kvs]
      cases hr : lookupJ kvs "$ref" with
      | none => rfl
      | some v =>
          cases v <;> try rfl
          case str r =>
            by_cases hs : strStartsWith r "#/definitions/" = true <;>
              simp [hs]

theorem extractRefsObj_eq : ∀ l, extractRefsObj l = (refStringsObj l).filterMap fun r =>
    if strStartsWith r "#/definitions/" = true
    then some (replaceStr r "#/definitions/" "") else none
  | [] => rfl
  | kv :: rest => by
      simp only [extractRefsObj, refStringsObj, List.filterMap_append]
      rw [extractRefs_eq kv.2, extractRefsObj_eq rest]

theorem extractRefsArr_eq : ∀ l, extractRefsArr l = (refStringsArr l).filterMap fun r =>
    if strStartsWith r "#/definitions/" = true
    then some (replaceStr r "#/definitions/" "") else none
  | [] => rfl
  | x :: rest => by
      simp only [extractRefsArr, refStringsArr, List.filterMap_append]
      rw [extractRefs_eq x, extractRefsArr_eq rest]

end

theorem mem_find_used_models (d : Json) (M : String) :
    M ∈ find_used_models d ↔
      ∃ r ∈ refStrings d, strStartsWith r "#/definitions/" = true ∧
        replaceStr r "#/definitions/" "" = M := by
  rw [find_used_models, extractRefs_eq, List.mem_filterMap]
  constructor
  · rintro ⟨r, hrmem, hr⟩
    by_cases hs : strStartsWith r "#/definitions/" = true
    · rw [if_pos hs] at hr
      exact ⟨r, hrmem, hs, Option.some.inj hr⟩
    · rw [if_neg hs] at hr
      cases hr
  · rintro ⟨r, hrmem, hs, hrepl⟩
    exact ⟨r, hrmem, by rw [if_pos hs, hrepl]⟩

/-- Claim C3, amended.  `remove_unused_models` keeps a definition named `M`
if and only if some dict node anywhere in the input (the scan runs on the
whole document, definitions included) has a `$ref` string value `r` that
starts with `#/definitions/` and yields `M` once **every** occurrence of the
substring `#/definitions/` is removed (`str.replace` replaces all
occurrences, not only the prefix); everything outside `definitions` is
unchanged. -/
theorem c3_remove_unused_models (d : Json) (kvs defs : List (String × Json))
    (hd : d = Json.obj kvs)
    (hdefs : lookupJ kvs "definitions" = some (Json.obj defs)) :
    ∃ defs', topLookup (remove_unused_models d) "definitions" = some (Json.obj defs') ∧
      (∀ M mv, ((M, mv) ∈ defs' ↔ (M, mv) ∈ defs ∧
        ∃ r ∈ refStrings d, strStartsWith r "#/definitions/" = true ∧
          replaceStr r "#/definitions/" "" = M)) ∧
      topKeys (remove_unused_models d) = topKeys d ∧
      (∀ k, k ≠ "definitions" → topLookup (remove_unused_models d) k = topLookup d k) := by
  subst hd
  refine ⟨defs.filter fun kv => (find_used_models (Json.obj kvs)).contains kv.1,
    ?_, ?_, ?_, ?_⟩
  · simp [remove_unused_models, hdefs, topLookup, lookupJ_setKey_self]
  · intro M mv
    rw [List.mem_filter]
    constructor
    · rintro ⟨hmem, hcont⟩
      have hM : M ∈ find_used_models (Json.obj kvs) := by
        simpa using hcont
      exact ⟨hmem, (mem_find_used_models _ M).1 hM⟩
    · rintro ⟨hmem, hused⟩
      refine ⟨hmem, ?_⟩
      have hM : M ∈ find_used_models (Json.obj kvs) :=
        (mem_find_used_models _ M).2 hused
      simpa using hM
  · simp only [remove_unused_models, hdefs]
    exact topKeys_setKey_of_hasKey kvs "definitions" _ (by simp [hasKey, hdefs])
  · intro k hk
    simp only [remove_unused_models, hdefs]
    exact topLookup_setKey_ne kvs "definitions" k _ hk

/-- Witness for C3's amended theorem (projected to the frame part) at a
concrete document. -/
theorem c3_remove_unused_models_witness :
    topKeys (remove_unused_models
      (Json.obj [("definitions", Json.obj [("Used", Json.obj []), ("Unused", Json.obj [])]),
                 ("paths", Json.obj [("x", Json.obj
                   [("$ref", Json.str "#/definitions/Used")])])])) =
      topKeys
        (Json.obj [("definitions", Json.obj [("Used", Json.obj []), ("Unused", Json.obj [])]),
                   ("paths", Json.obj [("x", Json.obj
                     [("$ref", Json.str "#/definitions/Used")])])]) :=
  (c3_remove_unused_models
      (Json.obj [("definitions", Json.obj [("Used", Json.obj []), ("Unused", Json.obj [])]),
                 ("paths", Json.obj [("x", Json.obj
                   [("$ref", Json.str "#/definitions/Used")])])])
      [("definitions", Json.obj [("Used", Json.obj []), ("Unused", Json.obj [])]),
       ("paths", Json.obj [("x", Json.obj [("$ref", Json.str "#/definitions/Used")])])]
      [("Used", Json.obj []), ("Unused", Json.obj [])]
      rfl rfl).choose_spec.2.2.1

/-- Counterexample to claim C3 as stated: in this document the only `$ref`
value anywhere is `#/definitions/A#/definitions/B`, so no object has a
`$ref` equal to `#/definitions/AB`; the claim then says the definition `AB`
must be removed, yet `remove_unused_models` keeps it, because
`ref.replace("#/definitions/", "")` removes both occurrences of the prefix
and produces the model name `AB`. -/
theorem c3_counterexample :
    refStrings
        (Json.obj [("definitions", Json.obj [("AB", Json.obj [])]),
                   ("paths", Json.obj [("x", Json.obj
                     [("$ref", Json.str "#/definitions/A#/definitions/B")])])]) =
      ["#/definitions/A#/definitions/B"] ∧
    topLookup (remove_unused_models
        (Json.obj [("definitions", Json.obj [("AB", Json.obj [])]),
                   ("paths", Json.obj [("x", Json.obj
                     [("$ref", Json.str "#/definitions/A#/definitions/B")])])]))
      "definitions" = some (Json.obj [("AB", Json.obj [])]) := by
  decide

/-! ### `validate_config` -/

set_option maxHeartbeats 1000000 in
/-- Claim C7: `validate_config` rejects (prints an error and exits) exactly
when one of the seven required fields is missing or falsy, or some entry of
a present `connectionParameters` lacks `type` or `uiDefinition`, or some
entry of a present `policyTemplates` lacks `templateId` or `parameters`;
every other configuration is accepted (the function only reads the
configuration, so it is trivially unchanged).  The hypotheses pin the
dict/list shapes Python subscripts without raising. -/
theorem c7_validate_config (config : List (String × Json))
    (hcp : ∀ v, lookupJ config "connectionParameters" = some v →
      ∃ cps, v = Json.obj cps ∧ ∀ kv ∈ cps, ∃ pc, kv.2 = Json.obj pc)
    (hpt : ∀ v, lookupJ config "policyTemplates" = some v →
      ∃ ts, v = Json.arr ts ∧ ∀ t ∈ ts, ∃ tc, t = Json.obj tc) :
    validate_config config = false ↔
      (∃ f ∈ requiredConfigFields, ∀ v, lookupJ config f = some v → v.truthy = false) ∨
      (∃ cps, lookupJ config "connectionParameters" = some (Json.obj cps) ∧
        ∃ kv ∈ cps, ∃ pc, kv.2 = Json.obj pc ∧
          (hasKey pc "type" = false ∨ hasKey pc "uiDefinition" = false)) ∨
      (∃ ts, lookupJ config "policyTemplates" = some (Json.arr ts) ∧
        ∃ t ∈ ts, ∃ tc, t = Json.obj tc ∧
          (hasKey tc "templateId" = false ∨ hasKey tc "parameters" = false)) := by
  have hA : ((requiredConfigFields.all fun f =>
      match lookupJ config f with
      | some v => v.truthy
      | none => false) = false) ↔
      ∃ f ∈ requiredConfigFields, ∀ v, lookupJ config f = some v → v.truthy = false := by
    rw [Bool.eq_false_iff, Ne, List.all_eq_true]
    push_neg
    constructor
    · rintro ⟨f, hf, hp⟩
      refine ⟨f, hf, fun v hv => ?_⟩
      rw [hv] at hp
      simpa using hp
    · rintro ⟨f, hf, hp⟩
      refine ⟨f, hf, ?_⟩
      cases hv : lookupJ config f with
      | none => simp
      | some v => simpa using hp v hv
  have hB : ((match lookupJ config "connectionParameters" with
      | some (.obj cps) =>
          cps.all fun kv =>
            match kv.2 with
            | .obj pc => hasKey pc "type" && hasKey pc "uiDefinition"
            | _ => false
      | some _ => false
      | none => true) = false) ↔
      ∃ cps, lookupJ config "connectionParameters" = some (Json.obj cps) ∧
        ∃ kv ∈ cps, ∃ pc, kv.2 = Json.obj pc ∧
          (hasKey pc "type" = false ∨ hasKey pc "uiDefinition" = false) := by
    cases hv : lookupJ config "connectionParameters" with
    | none =>
        simp
    | some v =>
        obtain ⟨cps, rfl, hentries⟩ := hcp v hv
        simp only [true_iff, Option.some.injEq, Json.obj.injEq]
        constructor
        · intro hall
          rw [Bool.eq_false_iff, Ne, List.all_eq_true] at hall
          push_neg at hall
          obtain ⟨kv, hkv, hq⟩ := hall
          obtain ⟨pc, hpc⟩ := hentries kv hkv
          rw [hpc] at hq
          have hq' : ¬((hasKey pc "type" && hasKey pc "uiDefinition") = true) := hq
          refine ⟨cps, rfl, kv, hkv, pc, hpc, ?_⟩
          rcases Bool.eq_false_or_eq_true (hasKey pc "type") with h1 | h1
          · rcases Bool.eq_false_or_eq_true (hasKey pc "uiDefinition") with h2 | h2
            · exact absurd (by rw [h1, h2]; rfl) hq'
            · exact Or.inr h2
          · exact Or.inl h1
        · rintro ⟨cps', hcps', kv, hkv, pc, hpc, hmiss⟩
          obtain rfl : cps = cps' := hcps'
          rw [Bool.eq_false_iff, Ne, List.all_eq_true]
          push_neg
          refine ⟨kv, hkv, ?_⟩
          rw [hpc]
          intro hab
          have hab' : (hasKey pc "type" && hasKey pc "uiDefinition") = true := hab
          rw [Bool.and_eq_true] at hab'
          rcases hmiss with h | h
          · rw [h] at hab'
            exact absurd hab'.1 (by decide)
          · rw [h] at hab'
            exact absurd hab'.2 (by decide)
  have hC : ((match lookupJ config "policyTemplates" with
      | some (.arr ts) =>
          ts.all fun t =>
            match t with
            | .obj tc => hasKey tc "templateId" && hasKey tc "parameters"
            | _ => false
      | some _ => false
      | none => true) = false) ↔
      ∃ ts, lookupJ config "policyTemplates" = some (Json.arr ts) ∧
        ∃ t ∈ ts, ∃ tc, t = Json.obj tc ∧
          (hasKey tc "templateId" = false ∨ hasKey tc "parameters" = false) := by
    cases hv : lookupJ config "policyTemplates" with
    | none => simp
    | some v =>
        obtain ⟨ts, rfl, hentries⟩ := hpt v hv
        simp only [true_iff, Option.some.injEq, Json.arr.injEq]
        constructor
        · intro hall
          rw [Bool.eq_false_iff, Ne, List.all_eq_true] at hall
          push_neg at hall
          obtain ⟨t, ht, hq⟩ := hall
          obtain ⟨tc, htc⟩ := hentries t ht
          rw [htc] at hq
          have hq' : ¬((hasKey tc "templateId" && hasKey tc "parameters") = true) := hq
          refine ⟨ts, rfl, t, ht, tc, htc, ?_⟩
          rcases Bool.eq_false_or_eq_true (hasKey tc "templateId") with h1 | h1
          · rcases Bool.eq_false_or_eq_true (hasKey tc "parameters") with h2 | h2
            · exact absurd (by rw [h1, h2]; rfl) hq'
            · exact Or.inr h2
          · exact Or.inl h1
        · rintro ⟨ts', hts', t, ht, tc, htc, hmiss⟩
          obtain rfl : ts = ts' := hts'
          rw [Bool.eq_false_iff, Ne, List.all_eq_true]
          push_neg
          refine ⟨t, ht, ?_⟩
          rw [htc]
          intro hab
          have hab' : (hasKey tc "templateId" && hasKey tc "parameters") = true := hab
          rw [Bool.and_eq_true] at hab'
          rcases hmiss with h | h
          · rw [h] at hab'
            exact absurd hab'.1 (by decide)
          · rw [h] at hab'
            exact absurd hab'.2 (by decide)
  unfold validate_config
  rw [Bool.and_eq_false_iff, Bool.and_eq_false_iff]
  rw [hA, hB, hC]
  exact or_assoc

/-- Witness for C7 at a concrete configuration missing `publisher`. -/
theorem c7_validate_config_witness :
    validate_config [("displayName", Json.str "Fulcrum")] = false :=
  (c7_validate_config [("displayName", Json.str "Fulcrum")]
      (fun v hv => by cases hv) (fun v hv => by cases hv)).2
    (Or.inl ⟨"publisher", by decide, fun v hv => by cases hv⟩)

/-! ### `filter_endpoints` -/

theorem lookupJ_isSome_of_mem {l : List (String × Json)} {p : String} {v : Json}
    (h : (p, v) ∈ l) : (lookupJ l p).isSome = true := by
  induction l with
  | nil => cases h
  | cons kv rest ih =>
      obtain ⟨k0, v0⟩ := kv
      rcases List.mem_cons.1 h with he | ht
      · obtain ⟨h1, h2⟩ := Prod.mk.injEq .. ▸ he
        simp [lookupJ, h1.symm]
      · by_cases hk : k0 = p
        · simp [lookupJ, hk]
        · simpa [lookupJ, hk] using ih ht

theorem mem_of_lookupJ {l : List (String × Json)} {p : String} {v : Json}
    (h : lookupJ l p = some v) : (p, v) ∈ l := by
  induction l with
  | nil => cases h
  | cons kv rest ih =>
      obtain ⟨k0, v0⟩ := kv
      by_cases hk : k0 = p
      · subst hk
        rw [lookupJ, if_pos rfl] at h
        injection h with h1
        subst h1
        exact List.mem_cons_self _ _
      · rw [lookupJ, if_neg hk] at h
        exact List.mem_cons_of_mem _ (ih h)

theorem lookupJ_eq_none_of_not_mem_keys {l : List (String × Json)} {p : String}
    (h : p ∉ l.map Prod.fst) : lookupJ l p = none := by
  induction l with
  | nil => rfl
  | cons kv rest ih =>
      obtain ⟨k0, v0⟩ := kv
      rw [List.map_cons, List.mem_cons] at h
      push_neg at h
      rw [lookupJ, if_neg (fun hh => h.1 hh.symm)]
      exact ih h.2

theorem map_fst_filterMap_subset (f : String × Json → Option (String × Json))
    (hf : ∀ pi r, f pi = some r → r.1 = pi.1) (l : List (String × Json)) :
    (l.filterMap f).map Prod.fst ⊆ l.map Prod.fst := by
  induction l with
  | nil => simp
  | cons pi rest ih =>
      rw [List.filterMap_cons]
      cases hr : f pi with
      | none =>
          exact List.Subset.trans ih (by simp)
      | some r =>
          rw [List.map_cons, List.map_cons]
          intro x hx
          rcases List.mem_cons.1 hx with he | ht
          · rw [List.mem_cons]
            exact Or.inl (he.trans (hf pi r hr))
          · exact List.mem_cons_of_mem _ (ih ht)

/-- The body applied to each path by `filter_endpoints` keeps the path key. -/
theorem filterEndpoints_body_key (keep : List String) (pi r : String × Json)
    (hr : (match pi.2 with
      | Json.obj item =>
          let filtered := item.filter (keptEntry keep pi.1)
          if filtered.isEmpty then none else some (pi.1, Json.obj filtered)
      | v => some (pi.1, v)) = some r) : r.1 = pi.1 := by
  obtain ⟨q, w⟩ := pi
  cases w with
  | obj item =>
      have hr' : (if (item.filter (keptEntry keep q)).isEmpty then none
          else some (q, Json.obj (item.filter (keptEntry keep q)))) = some r := hr
      by_cases hemp : (item.filter (keptEntry keep q)).isEmpty = true
      · rw [if_pos hemp] at hr'
        cases hr'
      · rw [if_neg hemp] at hr'
        injection hr' with h1
        rw [← h1]
  | null => injection hr with h1; rw [← h1]
  | bool b => injection hr with h1; rw [← h1]
  | num n => injection hr with h1; rw [← h1]
  | str t => injection hr with h1; rw [← h1]
  | arr xs => injection hr with h1; rw [← h1]

/-- Lookup of one path in the filtered `paths` built by `filter_endpoints`. -/
theorem lookupJ_filterEndpoints (keep : List String) (paths : List (String × Json))
    (p : String) (kvs : List (String × Json))
    (hnodup : (paths.map Prod.fst).Nodup)
    (hmem : (p, Json.obj kvs) ∈ paths) :
    lookupJ (paths.filterMap fun pi =>
      match pi.2 with
      | .obj item =>
          let filtered := item.filter (keptEntry keep pi.1)
          if filtered.isEmpty then none else some (pi.1, Json.obj filtered)
      | v => some (pi.1, v)) p =
      (if (kvs.filter (keptEntry keep p)).isEmpty then none
       else some (Json.obj (kvs.filter (keptEntry keep p)))) := by
  induction paths with
  | nil => cases hmem
  | cons pi0 rest ih =>
      obtain ⟨q, w⟩ := pi0
      rw [List.map_cons, List.nodup_cons] at hnodup
      rcases List.mem_cons.1 hmem with he | ht
      · have hq : q = p := by
          injection he.symm with h1 h2
        have hw : w = Json.obj kvs := by
          injection he.symm with h1 h2
        subst hq
        subst hw
        rw [List.filterMap_cons]
        by_cases hemp : (kvs.filter (keptEntry keep q)).isEmpty = true
        · have hnone : (match (q, Json.obj kvs).2 with
              | Json.obj item =>
                  let filtered := item.filter (keptEntry keep (q, Json.obj kvs).1)
                  if filtered.isEmpty then none
                  else some ((q, Json.obj kvs).1, Json.obj filtered)
              | v => some ((q, Json.obj kvs).1, v)) = none := by
            have : (if (kvs.filter (keptEntry keep q)).isEmpty then none
                else some (q, Json.obj (kvs.filter (keptEntry keep q)))) =
                (none : Option (String × Json)) := by rw [if_pos hemp]
            exact this
          rw [hnone, if_pos hemp]
          apply lookupJ_eq_none_of_not_mem_keys
          intro hin
          exact hnodup.1
            (map_fst_filterMap_subset _ (filterEndpoints_body_key keep) rest hin)
        · have hsome : (match (q, Json.obj kvs).2 with
              | Json.obj item =>
                  let filtered := item.filter (keptEntry keep (q, Json.obj kvs).1)
                  if filtered.isEmpty then none
                  else some ((q, Json.obj kvs).1, Json.obj filtered)
              | v => some ((q, Json.obj kvs).1, v)) =
              some (q, Json.obj (kvs.filter (keptEntry keep q))) := by
            have : (if (kvs.filter (keptEntry keep q)).isEmpty then none
                else some (q, Json.obj (kvs.filter (keptEntry keep q)))) =
                some (q, Json.obj (kvs.filter (keptEntry keep q))) := by rw [if_neg hemp]
            exact this
          rw [hsome, if_neg hemp, lookupJ, if_pos rfl]
      · have hp : p ∈ rest.map Prod.fst := by
          have := List.mem_map_of_mem Prod.fst ht
          simpa using this
        have hq : q ≠ p := fun hqp => hnodup.1 (hqp ▸ hp)
        rw [List.filterMap_cons]
        cases hfa : (match (q, w).2 with
            | Json.obj item =>
                let filtered := item.filter (keptEntry keep (q, w).1)
                if filtered.isEmpty then none
                else some ((q, w).1, Json.obj filtered)
            | v => some ((q, w).1, v)) with
        | none => exact ih hnodup.2 ht
        | some r =>
            have hr1 : r.1 = q := filterEndpoints_body_key keep (q, w) r hfa
            obtain ⟨r1, r2⟩ := r
            simp only at hr1
            subst hr1
            rw [lookupJ, if_neg hq]
            exact ih hnodup.2 ht

/-- Claim C2: with a non-empty allow-list, `filter_endpoints` keeps an
HTTP-method entry of path `p` exactly when `f"{path}/{method}"` (as written
or with the method lowercased) is a member of the list, keeps every
non-method entry of a path item unchanged, and keeps a path exactly when at
least one of its entries is kept; with an empty allow-list the input
document is returned unchanged. -/
theorem c2_filter_endpoints (keep : List String) (d : Json)
    (paths : List (String × Json))
    (hne : keep ≠ [])
    (hp : topLookup d "paths" = some (Json.obj paths))
    (hnodup : (paths.map Prod.fst).Nodup)
    (hitems : ∀ pi ∈ paths, pi.2.isObj = true) :
    (∃ paths', topLookup (filter_endpoints keep d) "paths" = some (Json.obj paths') ∧
      ∀ p kvs, (p, Json.obj kvs) ∈ paths →
        (lookupJ paths' p =
          (if (kvs.filter (keptEntry keep p)).isEmpty then none
           else some (Json.obj (kvs.filter (keptEntry keep p)))) ∧
         (∀ m op, (m, op) ∈ kvs → isHttpMethod m = true →
            ((∃ kvs', lookupJ paths' p = some (Json.obj kvs') ∧ (m, op) ∈ kvs') ↔
              (keep.contains (p ++ "/" ++ m) = true ∨
               keep.contains (p ++ "/" ++ lowerStr m) = true))) ∧
         (∀ m op, (m, op) ∈ kvs → isHttpMethod m = false →
            ∃ kvs', lookupJ paths' p = some (Json.obj kvs') ∧ (m, op) ∈ kvs') ∧
         ((∃ it, (p, it) ∈ paths') ↔ ∃ e ∈ kvs, keptEntry keep p e = true))) ∧
    filter_endpoints [] d = d := by
  constructor
  · cases d <;> simp only [topLookup] at hp <;> try cases hp
    case obj kvs =>
      have hkeep : keep.isEmpty = false := by
        cases keep with
        | nil => exact absurd rfl hne
        | cons a l => rfl
      refine ⟨paths.filterMap fun pi =>
        match pi.2 with
        | .obj item =>
            let filtered := item.filter (keptEntry keep pi.1)
            if filtered.isEmpty then none else some (pi.1, Json.obj filtered)
        | v => some (pi.1, v), ?_, ?_⟩
      · simp [filter_endpoints, hkeep, hp, topLookup, lookupJ_setKey_self]
      · intro p kvs0 hmem
        have hlook := lookupJ_filterEndpoints keep paths p kvs0 hnodup hmem
        refine ⟨hlook, ?_, ?_, ?_⟩
        · intro m op hop hm
          constructor
          · rintro ⟨kvs', hk, hmem'⟩
            rw [hlook] at hk
            by_cases hemp : (kvs0.filter (keptEntry keep p)).isEmpty = true
            · rw [if_pos hemp] at hk
              cases hk
            · rw [if_neg hemp] at hk
              injection hk with h1
              injection h1 with h2
              subst h2
              have := (List.mem_filter.1 hmem').2
              rw [keptEntry, if_pos hm] at this
              rw [Bool.or_eq_true] at this
              rcases this with h | h
              · exact Or.inl h
              · exact Or.inr h
          · intro hin
            have hkept : keptEntry keep p (m, op) = true := by
              rw [keptEntry, if_pos hm]
              rcases hin with h | h
              · rw [h]
                rfl
              · rw [h, Bool.or_true]
            have hmemf : (m, op) ∈ kvs0.filter (keptEntry keep p) :=
              List.mem_filter.2 ⟨hop, hkept⟩
            have hemp : (kvs0.filter (keptEntry keep p)).isEmpty = false := by
              cases hf : kvs0.filter (keptEntry keep p) with
              | nil => rw [hf] at hmemf; cases hmemf
              | cons a l => rfl
            rw [hlook, if_neg (by rw [hemp]; exact fun h => nomatch h)]
            exact ⟨_, rfl, hmemf⟩
        · intro m op hop hm
          have hkept : keptEntry keep p (m, op) = true := by
            rw [keptEntry, if_neg (by rw [hm]; exact fun h => nomatch h)]
          have hmemf : (m, op) ∈ kvs0.filter (keptEntry keep p) :=
            List.mem_filter.2 ⟨hop, hkept⟩
          have hemp : (kvs0.filter (keptEntry keep p)).isEmpty = false := by
            cases hf : kvs0.filter (keptEntry keep p) with
            | nil => rw [hf] at hmemf; cases hmemf
            | cons a l => rfl
          rw [hlook, if_neg (by rw [hemp]; exact fun h => nomatch h)]
          exact ⟨_, rfl, hmemf⟩
        · constructor
          · rintro ⟨it, hmem'⟩
            have hsome := lookupJ_isSome_of_mem hmem'
            rw [hlook] at hsome
            by_cases hemp : (kvs0.filter (keptEntry keep p)).isEmpty = true
            · rw [if_pos hemp] at hsome
              cases hsome
            · cases hf : kvs0.filter (keptEntry keep p) with
              | nil => rw [hf] at hemp; exact absurd rfl hemp
              | cons e l =>
                  have he : e ∈ kvs0.filter (keptEntry keep p) := by
                    rw [hf]
                    exact List.mem_cons_self _ _
                  have := List.mem_filter.1 he
                  exact ⟨e, this.1, this.2⟩
          · rintro ⟨e, hemem, hkept⟩
            have hmemf : e ∈ kvs0.filter (keptEntry keep p) :=
              List.mem_filter.2 ⟨hemem, hkept⟩
            have hemp : (kvs0.filter (keptEntry keep p)).isEmpty = false := by
              cases hf : kvs0.filter (keptEntry keep p) with
              | nil => rw [hf] at hmemf; cases hmemf
              | cons a l => rfl
            have : lookupJ (paths.filterMap fun pi =>
                match pi.2 with
                | .obj item =>
                    let filtered := item.filter (keptEntry keep pi.1)
                    if filtered.isEmpty then none else some (pi.1, Json.obj filtered)
                | v => some (pi.1, v)) p =
                some (Json.obj (kvs0.filter (keptEntry keep p))) := by
              rw [hlook, if_neg (by rw [hemp]; exact fun h => nomatch h)]
            exact ⟨_, mem_of_lookupJ this⟩
  · simp [filter_endpoints]

/-- Witness for C2 at a concrete document and allow-list (projected to the
empty-list clause). -/
theorem c2_filter_endpoints_witness :
    filter_endpoints []
        (Json.obj [("paths", Json.obj [("/a", Json.obj [("get", Json.obj [])])])]) =
      Json.obj [("paths", Json.obj [("/a", Json.obj [("get", Json.obj [])])])] :=
  (c2_filter_endpoints ["/a/get"]
      (Json.obj [("paths", Json.obj [("/a", Json.obj [("get", Json.obj [])])])])
      [("/a", Json.obj [("get", Json.obj [])])]
      (by decide) rfl (by decide) (by decide)).2

/-! ### The title pipeline of `fix_info_section` -/

theorem collapseWsAux_head_not_space :
    ∀ (l : List Char) (c : Char), (collapseWsAux true l).head? = some c →
      isPySpace c = false
  | [], c => by intro h; cases h
  | c0 :: rest, c => by
      intro h
      by_cases hs : isPySpace c0 = true
      · rw [collapseWsAux, if_pos hs, if_pos rfl] at h
        exact collapseWsAux_head_not_space rest c h
      · rw [collapseWsAux, if_neg hs] at h
        injection h with h1
        subst h1
        exact Bool.eq_false_iff.2 hs

theorem noTwoWs_cons_of (a : Char) (l : List Char)
    (hl : noTwoWs l = true)
    (h : ∀ c, l.head? = some c → (isPySpace a && isPySpace c) = false) :
    noTwoWs (a :: l) = true := by
  cases l with
  | nil => rfl
  | cons b r =>
      simp only [noTwoWs, Bool.and_eq_true]
      refine ⟨?_, hl⟩
      rw [h b rfl]
      rfl

theorem noTwoWs_collapseAux : ∀ (l : List Char) (b : Bool),
    noTwoWs (collapseWsAux b l) = true
  | [], _ => rfl
  | c0 :: rest, b => by
      by_cases hs : isPySpace c0 = true
      · cases b with
        | true =>
            rw [collapseWsAux, if_pos hs, if_pos rfl]
            exact noTwoWs_collapseAux rest true
        | false =>
            rw [collapseWsAux, if_pos hs]
            simp only [Bool.false_eq_true, if_false]
            refine noTwoWs_cons_of _ _ (noTwoWs_collapseAux rest true) ?_
            intro c hc
            rw [collapseWsAux_head_not_space rest c hc, Bool.and_false]
      · rw [collapseWsAux, if_neg hs]
        refine noTwoWs_cons_of _ _ (noTwoWs_collapseAux rest false) ?_
        intro c hc
        rw [Bool.eq_false_iff.2 hs, Bool.false_and]

theorem noTwoWs_tail (a : Char) (l : List Char) (h : noTwoWs (a :: l) = true) :
    noTwoWs l = true := by
  cases l with
  | nil => rfl
  | cons b r =>
      simp only [noTwoWs, Bool.and_eq_true] at h
      exact h.2

theorem noTwoWs_dropWhile (p : Char → Bool) (l : List Char)
    (h : noTwoWs l = true) : noTwoWs (l.dropWhile p) = true := by
  induction l with
  | nil => exact h
  | cons a r ih =>
      rw [List.dropWhile_cons]
      split
      · exact ih (noTwoWs_tail a r h)
      · exact h

theorem noTwoWs_append_left (l t : List Char) (h : noTwoWs (l ++ t) = true) :
    noTwoWs l = true := by
  induction l with
  | nil => rfl
  | cons a r ih =>
      cases r with
      | nil => rfl
      | cons b r2 =>
          simp only [List.cons_append] at h
          simp only [noTwoWs, Bool.and_eq_true] at h ⊢
          refine ⟨h.1, ?_⟩
          have := ih (by simpa using h.2)
          simpa using this

theorem rdropWhile_append (p : Char → Bool) (l : List Char) :
    ∃ t, l = (l.reverse.dropWhile p).reverse ++ t := by
  refine ⟨(l.reverse.takeWhile p).reverse, ?_⟩
  calc l = (l.reverse).reverse := (List.reverse_reverse l).symm
    _ = (l.reverse.takeWhile p ++ l.reverse.dropWhile p).reverse := by
        rw [List.takeWhile_append_dropWhile]
    _ = (l.reverse.dropWhile p).reverse ++ (l.reverse.takeWhile p).reverse :=
        List.reverse_append _ _

theorem dropWhile_head_not (p : Char → Bool) (l : List Char) :
    l.dropWhile p = [] ∨ ∃ c t, l.dropWhile p = c :: t ∧ p c = false := by
  induction l with
  | nil => exact Or.inl rfl
  | cons a r ih =>
      rw [List.dropWhile_cons]
      split
      · exact ih
      · right
        exact ⟨a, r, rfl, by simp_all⟩

theorem rdropNonAlnum_last (l : List Char) :
    rdropNonAlnum l = [] ∨
      ∃ c, (rdropNonAlnum l).getLast? = some c ∧ isAsciiAlnum c = true := by
  rcases dropWhile_head_not (fun c => !isAsciiAlnum c) l.reverse with h | ⟨c, t, h, hc⟩
  · left
    rw [rdropNonAlnum, h]
    rfl
  · right
    refine ⟨c, ?_, by simpa using hc⟩
    rw [rdropNonAlnum, h, List.getLast?_reverse]
    rfl

theorem noTwoWs_pipeline (X : List Char) :
    noTwoWs (rdropNonAlnum (pyStripChars (collapseWsChars X))) = true := by
  have h1 : noTwoWs (collapseWsChars X) = true := noTwoWs_collapseAux X false
  have h2 : noTwoWs ((collapseWsChars X).dropWhile isPySpace) = true :=
    noTwoWs_dropWhile _ _ h1
  have h3 : noTwoWs (pyStripChars (collapseWsChars X)) = true := by
    obtain ⟨t, ht⟩ := rdropWhile_append isPySpace ((collapseWsChars X).dropWhile isPySpace)
    rw [pyStripChars]
    exact noTwoWs_append_left _ t (ht ▸ h2)
  obtain ⟨t2, ht2⟩ := rdropWhile_append (fun c => !isAsciiAlnum c)
    (pyStripChars (collapseWsChars X))
  rw [rdropNonAlnum]
  exact noTwoWs_append_left _ t2 (ht2 ▸ h3)

theorem lookupJ_fixInfoObj_title (infoCfg : Json) (info : List (String × Json)) (t : String)
    (ht : lookupJ info "title" = some (Json.str t)) :
    lookupJ (fixInfoObj infoCfg info) "title" =
      some (Json.str (fixTitle (restrictedWords infoCfg) t)) := by
  have hdesc : ∀ (l : List (String × Json)) (v : Json),
      lookupJ (setKey l "description" v) "title" = lookupJ l "title" :=
    fun l v => lookupJ_setKey_ne l "description" "title" v (by decide)
  have hcontact : ∀ (l : List (String × Json)) (v : Json),
      lookupJ (setKey l "contact" v) "title" = lookupJ l "title" :=
    fun l v => lookupJ_setKey_ne l "contact" "title" v (by decide)
  unfold fixInfoObj
  simp only [ht]
  rw [lookupJ_delKey_ne _ _ _ (by decide)]
  split <;> split <;> simp only [hdesc, hcontact, lookupJ_setKey_self]

/-- Claim C4, amended.  After `fix_info_section` (with any configuration)
the title contains no two consecutive whitespace characters and is either
empty or ends with an alphanumeric character.  The original claim's
restricted-word guarantee does not survive: the whole-word removal runs
before the trailing-punctuation strip, which can both reintroduce a
restricted word (title `"api_"` becomes `"api"`) and produce an empty title
(title `"api"` becomes `""`, which ends with no alphanumeric character). -/
theorem c4_fix_info_title (infoCfg connectorMeta d : Json)
    (kvs info : List (String × Json)) (t : String)
    (hd : d = Json.obj kvs)
    (hinfo : lookupJ kvs "info" = some (Json.obj info))
    (ht : lookupJ info "title" = some (Json.str t)) :
    ∃ info' t', topLookup (fix_info_section infoCfg connectorMeta d) "info" =
        some (Json.obj info') ∧
      lookupJ info' "title" = some (Json.str t') ∧
      noTwoWs t'.data = true ∧
      (t' = "" ∨ ∃ c, t'.data.getLast? = some c ∧ isAsciiAlnum c = true) := by
  subst hd
  refine ⟨fixInfoObj infoCfg info, fixTitle (restrictedWords infoCfg) t, ?_, ?_, ?_, ?_⟩
  · rw [fix_info_section]
    simp only [hinfo]
    split
    · rw [topLookup, lookupJ_setKey_ne _ _ _ _ (by decide), lookupJ_setKey_self]
    · rw [topLookup, lookupJ_setKey_self]
  · exact lookupJ_fixInfoObj_title infoCfg info t ht
  · exact noTwoWs_pipeline _
  · rcases rdropNonAlnum_last (pyStripChars (collapseWsChars
      (((restrictedWords infoCfg).foldl (fun acc w => subWholeWord w acc) t).data))) with h | ⟨c, hc, halnum⟩
    · left
      rw [fixTitle]
      congr 1
    · right
      exact ⟨c, hc, halnum⟩

/-- Witness for C4's amended theorem at a concrete title. -/
theorem c4_fix_info_title_witness :
    ∃ info' t', topLookup (fix_info_section (Json.obj []) (Json.arr [])
        (Json.obj [("info", Json.obj [("title", Json.str "My  Fulcrum API!")])])) "info" =
        some (Json.obj info') ∧
      lookupJ info' "title" = some (Json.str t') ∧
      noTwoWs t'.data = true ∧
      (t' = "" ∨ ∃ c, t'.data.getLast? = some c ∧ isAsciiAlnum c = true) :=
  c4_fix_info_title (Json.obj []) (Json.arr [])
    (Json.obj [("info", Json.obj [("title", Json.str "My  Fulcrum API!")])])
    [("info", Json.obj [("title", Json.str "My  Fulcrum API!")])]
    [("title", Json.str "My  Fulcrum API!")]
    "My  Fulcrum API!" rfl rfl rfl

/-- Counterexample to claim C4 as stated: with the default configuration,
the title `"api_"` is untouched by the whole-word pass (the underscore is a
word character, so `\bapi\b` does not match), and the trailing
non-alphanumeric strip then deletes the underscore — the output title is
exactly `"api"`, which contains the default restricted word `api` as a
whole word. -/
theorem c4_counterexample :
    topLookup (fix_info_section (Json.obj []) (Json.arr [])
        (Json.obj [("info", Json.obj [("title", Json.str "api_")])])) "info" =
      some (Json.obj [("title", Json.str "api")]) ∧
    containsWordCI "api" "api" = true ∧
    "api" ∈ restrictedWords (Json.obj []) := by
  decide

/-! ### `augment_spec` -/

theorem findUrlParam_isSome : ∀ ps : List Json,
    (findUrlParam ps).isSome = ps.any fun p =>
      match p with
      | .obj pk => isUrlNameParam pk || isBodyParam pk
      | _ => false
  | [] => rfl
  | p :: rest => by
      cases p with
      | obj kvs =>
          by_cases hu : isUrlNameParam kvs = true
          · simp [findUrlParam, hu, List.any_cons]
          · by_cases hb : isBodyParam kvs = true
            · simp [findUrlParam, hu, hb, List.any_cons]
            · have he : findUrlParam (Json.obj kvs :: rest) =
                  (match findUrlParam rest with
                   | some rest' => some (Json.obj kvs :: rest')
                   | none => none) := by
                simp [findUrlParam, hu, hb]
              rw [he]
              have h2 : (match findUrlParam rest with
                  | some rest' => some (Json.obj kvs :: rest')
                  | none => (none : Option (List Json))).isSome =
                  (findUrlParam rest).isSome := by
                cases findUrlParam rest <;> rfl
              rw [h2, findUrlParam_isSome rest]
              simp [List.any_cons, hu, hb]
      | null =>
          have h2 : (findUrlParam (Json.null :: rest)).isSome =
              (findUrlParam rest).isSome := by
            simp only [findUrlParam]
            cases findUrlParam rest <;> rfl
          rw [h2, findUrlParam_isSome rest]
          simp [List.any_cons]
      | bool b =>
          have h2 : (findUrlParam (Json.bool b :: rest)).isSome =
              (findUrlParam rest).isSome := by
            simp only [findUrlParam]
            cases findUrlParam rest <;> rfl
          rw [h2, findUrlParam_isSome rest]
          simp [List.any_cons]
      | num n =>
          have h2 : (findUrlParam (Json.num n :: rest)).isSome =
              (findUrlParam rest).isSome := by
            simp only [findUrlParam]
            cases findUrlParam rest <;> rfl
          rw [h2, findUrlParam_isSome rest]
          simp [List.any_cons]
      | str s =>
          have h2 : (findUrlParam (Json.str s :: rest)).isSome =
              (findUrlParam rest).isSome := by
            simp only [findUrlParam]
            cases findUrlParam rest <;> rfl
          rw [h2, findUrlParam_isSome rest]
          simp [List.any_cons]
      | arr xs =>
          have h2 : (findUrlParam (Json.arr xs :: rest)).isSome =
              (findUrlParam rest).isSome := by
            simp only [findUrlParam]
            cases findUrlParam rest <;> rfl
          rw [h2, findUrlParam_isSome rest]
          simp [List.any_cons]

theorem lookupJ_augmentResponses_ne (post : List (String × Json)) (k : String)
    (h : k ≠ "responses") : lookupJ (augmentResponses post) k = lookupJ post k := by
  cases h1 : lookupJ post "responses" with
  | none => simp [augmentResponses, h1]
  | some v =>
      cases v <;> simp only [augmentResponses, h1] <;> try rfl
      case obj resps =>
        split <;> first
          | rfl
          | exact lookupJ_setKey_ne _ _ _ _ h

theorem lookupJ_ensure_delete_ne (paths : List (String × Json)) (k : String)
    (h : k ≠ "/v2/webhooks/{webhook_id}.json") :
    lookupJ (ensure_webhook_delete_endpoint paths).2 k = lookupJ paths k := by
  unfold ensure_webhook_delete_endpoint
  repeat' split
  all_goals first
    | rfl
    | exact lookupJ_setKey_ne _ _ _ _ h

theorem lookupJ_augmentWebhookRequest_ne (defs : List (String × Json)) (k : String)
    (h : k ≠ "WebhookRequest") :
    lookupJ (augmentWebhookRequest defs) k = lookupJ defs k := by
  unfold augmentWebhookRequest
  repeat' split
  all_goals first
    | rfl
    | exact lookupJ_setKey_ne _ _ _ _ h

theorem lookupJ_post5 (post0 : List (String × Json)) (k : String)
    (h1 : k ≠ "x-ms-trigger") (h2 : k ≠ "x-ms-trigger-hint") (h3 : k ≠ "operationId")
    (h4 : k ≠ "summary") (h5 : k ≠ "description") (a b c d e : Json) :
    lookupJ (setKey (setKey (setKey (setKey (setKey post0 "x-ms-trigger" a)
      "x-ms-trigger-hint" b) "operationId" c) "summary" d) "description" e) k =
      lookupJ post0 k := by
  rw [lookupJ_setKey_ne _ _ _ _ h5, lookupJ_setKey_ne _ _ _ _ h4,
      lookupJ_setKey_ne _ _ _ _ h3, lookupJ_setKey_ne _ _ _ _ h2,
      lookupJ_setKey_ne _ _ _ _ h1]

theorem webhook_success_parts (paths item post7 : List (String × Json))
    (ht : lookupJ post7 "x-ms-trigger" = some (Json.str "single"))
    (ho : lookupJ post7 "operationId" = some (Json.str "OnFulcrumEvent")) :
    ∃ item' post',
      lookupJ (setKey paths "/v2/webhooks.json" (Json.obj (setKey (setKey item "post"
        (Json.obj post7)) "x-ms-notification-content" notificationContent)))
        "/v2/webhooks.json" = some (Json.obj item') ∧
      lookupJ item' "post" = some (Json.obj post') ∧
      lookupJ post' "x-ms-trigger" = some (Json.str "single") ∧
      lookupJ post' "operationId" = some (Json.str "OnFulcrumEvent") ∧
      hasKey item' "x-ms-notification-content" = true := by
  refine ⟨setKey (setKey item "post" (Json.obj post7)) "x-ms-notification-content"
    notificationContent, post7, lookupJ_setKey_self _ _ _, ?_, ht, ho,
    hasKey_setKey_self _ _ _⟩
  rw [lookupJ_setKey_ne _ _ _ _ (by decide)]
  exact lookupJ_setKey_self _ _ _

theorem augment_webhook_endpoint_spec (paths : List (String × Json)) :
    ((augment_webhook_endpoint paths).1 = true ↔ webhookTriggerCondition paths = true) ∧
    (webhookTriggerCondition paths = true →
      ∃ item' post',
        lookupJ (augment_webhook_endpoint paths).2 "/v2/webhooks.json" =
          some (Json.obj item') ∧
        lookupJ item' "post" = some (Json.obj post') ∧
        lookupJ post' "x-ms-trigger" = some (Json.str "single") ∧
        lookupJ post' "operationId" = some (Json.str "OnFulcrumEvent") ∧
        hasKey item' "x-ms-notification-content" = true) := by
  cases hw : lookupJ paths "/v2/webhooks.json" with
  | none =>
      have hcond : webhookTriggerCondition paths = false := by
        simp [webhookTriggerCondition, hw]
      refine ⟨by simp [augment_webhook_endpoint, hw, hcond], ?_⟩
      intro hc
      rw [hcond] at hc
      cases hc
  | some v =>
      cases v with
      | obj item =>
          cases hpost : lookupJ item "post" with
          | none =>
              have hcond : webhookTriggerCondition paths = false := by
                simp [webhookTriggerCondition, hw, hpost]
              refine ⟨by simp [augment_webhook_endpoint, hw, hpost, hcond], ?_⟩
              intro hc
              rw [hcond] at hc
              cases hc
          | some pj =>
              cases pj with
              | obj post0 =>
                  have hpar5 : ∀ (a b c d e : Json),
                      lookupJ (setKey (setKey (setKey (setKey (setKey post0
                        "x-ms-trigger" a) "x-ms-trigger-hint" b) "operationId" c)
                        "summary" d) "description" e) "parameters" =
                        lookupJ post0 "parameters" :=
                    fun a b c d e => lookupJ_post5 post0 "parameters"
                      (by decide) (by decide) (by decide) (by decide) (by decide) a b c d e
                  cases hpar : lookupJ post0 "parameters" with
                  | none =>
                      have hcond : webhookTriggerCondition paths = false := by
                        simp [webhookTriggerCondition, hw, hpost, hpar]
                      have hflag : (augment_webhook_endpoint paths).1 = false := by
                        simp only [augment_webhook_endpoint, hw, hpost, hpar5, hpar]
                      refine ⟨by rw [hflag, hcond], ?_⟩
                      intro hc
                      rw [hcond] at hc
                      cases hc
                  | some pv =>
                      cases pv with
                      | arr ps =>
                          cases hscan : findUrlParam ps with
                          | none =>
                              have hcond : webhookTriggerCondition paths = false := by
                                simp only [webhookTriggerCondition, hw, hpost, hpar]
                                have := findUrlParam_isSome ps
                                rw [hscan] at this
                                exact this.symm
                              have hflag : (augment_webhook_endpoint paths).1 = false := by
                                simp only [augment_webhook_endpoint, hw, hpost, hpar5,
                                  hpar, hscan]
                              refine ⟨by rw [hflag, hcond], ?_⟩
                              intro hc
                              rw [hcond] at hc
                              cases hc
                          | some ps' =>
                              have hcond : webhookTriggerCondition paths = true := by
                                simp only [webhookTriggerCondition, hw, hpost, hpar]
                                have := findUrlParam_isSome ps
                                rw [hscan] at this
                                exact this.symm
                              have hflag : (augment_webhook_endpoint paths).1 = true := by
                                simp only [augment_webhook_endpoint, hw, hpost, hpar5,
                                  hpar, hscan]
                              refine ⟨by rw [hflag, hcond], ?_⟩
                              intro _
                              simp only [augment_webhook_endpoint, hw, hpost, hpar5,
                                hpar, hscan]
                              apply webhook_success_parts
                              · rw [lookupJ_augmentResponses_ne _ _ (by decide),
                                  lookupJ_setKey_ne _ _ _ _ (by decide),
                                  lookupJ_setKey_ne _ _ _ _ (by decide),
                                  lookupJ_setKey_ne _ _ _ _ (by decide),
                                  lookupJ_setKey_ne _ _ _ _ (by decide),
                                  lookupJ_setKey_ne _ _ _ _ (by decide)]
                                exact lookupJ_setKey_self _ _ _
                              · rw [lookupJ_augmentResponses_ne _ _ (by decide),
                                  lookupJ_setKey_ne _ _ _ _ (by decide),
                                  lookupJ_setKey_ne _ _ _ _ (by decide),
                                  lookupJ_setKey_ne _ _ _ _ (by decide)]
                                exact lookupJ_setKey_self _ _ _
                      | null =>
                          have hcond : webhookTriggerCondition paths = false := by
                            simp [webhookTriggerCondition, hw, hpost, hpar]
                          have hflag : (augment_webhook_endpoint paths).1 = false := by
                            simp only [augment_webhook_endpoint, hw, hpost, hpar5, hpar]
                          refine ⟨by rw [hflag, hcond], ?_⟩
                          intro hc
                          rw [hcond] at hc
                          cases hc
                      | bool b =>
                          have hcond : webhookTriggerCondition paths = false := by
                            simp [webhookTriggerCondition, hw, hpost, hpar]
                          have hflag : (augment_webhook_endpoint paths).1 = false := by
                            simp only [augment_webhook_endpoint, hw, hpost, hpar5, hpar]
                          refine ⟨by rw [hflag, hcond], ?_⟩
                          intro hc
                          rw [hcond] at hc
                          cases hc
                      | num n =>
                          have hcond : webhookTriggerCondition paths = false := by
                            simp [webhookTriggerCondition, hw, hpost, hpar]
                          have hflag : (augment_webhook_endpoint paths).1 = false := by
                            simp only [augment_webhook_endpoint, hw, hpost, hpar5, hpar]
                          refine ⟨by rw [hflag, hcond], ?_⟩
                          intro hc
                          rw [hcond] at hc
                          cases hc
                      | str s =>
                          have hcond : webhookTriggerCondition paths = false := by
                            simp [webhookTriggerCondition, hw, hpost, hpar]
                          have hflag : (augment_webhook_endpoint paths).1 = false := by
                            simp only [augment_webhook_endpoint, hw, hpost, hpar5, hpar]
                          refine ⟨by rw [hflag, hcond], ?_⟩
                          intro hc
                          rw [hcond] at hc
                          cases hc
                      | obj o =>
                          have hcond : webhookTriggerCondition paths = false := by
                            simp [webhookTriggerCondition, hw, hpost, hpar]
                          have hflag : (augment_webhook_endpoint paths).1 = false := by
                            simp only [augment_webhook_endpoint, hw, hpost, hpar5, hpar]
                          refine ⟨by rw [hflag, hcond], ?_⟩
                          intro hc
                          rw [hcond] at hc
                          cases hc
              | null =>
                  have hcond : webhookTriggerCondition paths = false := by
                    simp [webhookTriggerCondition, hw, hpost]
                  refine ⟨by simp [augment_webhook_endpoint, hw, hpost, hcond], ?_⟩
                  intro hc
                  rw [hcond] at hc
                  cases hc
              | bool b =>
                  have hcond : webhookTriggerCondition paths = false := by
                    simp [webhookTriggerCondition, hw, hpost]
                  refine ⟨by simp [augment_webhook_endpoint, hw, hpost, hcond], ?_⟩
                  intro hc
                  rw [hcond] at hc
                  cases hc
              | num n =>
                  have hcond : webhookTriggerCondition paths = false := by
                    simp [webhookTriggerCondition, hw, hpost]
                  refine ⟨by simp [augment_webhook_endpoint, hw, hpost, hcond], ?_⟩
                  intro hc
                  rw [hcond] at hc
                  cases hc
              | str s =>
                  have hcond : webhookTriggerCondition paths = false := by
                    simp [webhookTriggerCondition, hw, hpost]
                  refine ⟨by simp [augment_webhook_endpoint, hw, hpost, hcond], ?_⟩
                  intro hc
                  rw [hcond] at hc
                  cases hc
              | arr xs =>
                  have hcond : webhookTriggerCondition paths = false := by
                    simp [webhookTriggerCondition, hw, hpost]
                  refine ⟨by simp [augment_webhook_endpoint, hw, hpost, hcond], ?_⟩
                  intro hc
                  rw [hcond] at hc
                  cases hc
      | null =>
          have hcond : webhookTriggerCondition paths = false := by
            simp [webhookTriggerCondition, hw]
          refine ⟨by simp [augment_webhook_endpoint, hw, hcond], ?_⟩
          intro hc
          rw [hcond] at hc
          cases hc
      | bool b =>
          have hcond : webhookTriggerCondition paths = false := by
            simp [webhookTriggerCondition, hw]
          refine ⟨by simp [augment_webhook_endpoint, hw, hcond], ?_⟩
          intro hc
          rw [hcond] at hc
          cases hc
      | num n =>
          have hcond : webhookTriggerCondition paths = false := by
            simp [webhookTriggerCondition, hw]
          refine ⟨by simp [augment_webhook_endpoint, hw, hcond], ?_⟩
          intro hc
          rw [hcond] at hc
          cases hc
      | str s =>
          have hcond : webhookTriggerCondition paths = false := by
            simp [webhookTriggerCondition, hw]
          refine ⟨by simp [augment_webhook_endpoint, hw, hcond], ?_⟩
          intro hc
          rw [hcond] at hc
          cases hc
      | arr xs =>
          have hcond : webhookTriggerCondition paths = false := by
            simp [webhookTriggerCondition, hw]
          refine ⟨by simp [augment_webhook_endpoint, hw, hcond], ?_⟩
          intro hc
          rw [hcond] at hc
          cases hc

theorem augment_spec_success_parts (kvs paths : List (String × Json))
    (hpaths : lookupJ kvs "paths" = some (Json.obj paths))
    (hdefs : ∀ v, lookupJ kvs "definitions" = some v → v.isObj = true)
    (hc : webhookTriggerCondition paths = true) :
    ∃ paths' item' post',
      topLookup (augment_spec (Json.obj kvs)).2 "paths" = some (Json.obj paths') ∧
      lookupJ paths' "/v2/webhooks.json" = some (Json.obj item') ∧
      lookupJ item' "post" = some (Json.obj post') ∧
      lookupJ post' "x-ms-trigger" = some (Json.str "single") ∧
      lookupJ post' "operationId" = some (Json.str "OnFulcrumEvent") ∧
      hasKey item' "x-ms-notification-content" = true ∧
      ∃ defsOut, topLookup (augment_spec (Json.obj kvs)).2 "definitions" =
        some (Json.obj defsOut) ∧ hasKey defsOut "FulcrumWebhookPayload" = true := by
  obtain ⟨hiff, hsucc⟩ := augment_webhook_endpoint_spec paths
  have hr : (augment_webhook_endpoint paths).1 = true := hiff.2 hc
  obtain ⟨item', post', hitem, hpost', htrig, hopid, hnotif⟩ := hsucc hc
  cases hdk : lookupJ kvs "definitions" with
  | none =>
      have hk1 : lookupJ (setKey kvs "paths"
          (Json.obj (ensure_webhook_delete_endpoint (augment_webhook_endpoint paths).2).2))
          "definitions" = none := by
        rw [lookupJ_setKey_ne _ _ _ _ (by decide), hdk]
      have hhk : hasKey (setKey kvs "paths"
          (Json.obj (ensure_webhook_delete_endpoint (augment_webhook_endpoint paths).2).2))
          "definitions" = false := by
        rw [hasKey, hk1]
        rfl
      have hk2 : lookupJ (setKey (setKey kvs "paths"
          (Json.obj (ensure_webhook_delete_endpoint (augment_webhook_endpoint paths).2).2))
          "definitions" (Json.obj [])) "definitions" = some (Json.obj []) :=
        lookupJ_setKey_self _ _ _
      have hout : augment_spec (Json.obj kvs) =
          (true, Json.obj (setKey (setKey (setKey kvs "paths"
            (Json.obj (ensure_webhook_delete_endpoint (augment_webhook_endpoint paths).2).2))
            "definitions" (Json.obj []))
            "definitions" (Json.obj (augmentWebhookRequest (setKey []
              "FulcrumWebhookPayload" createWebhookPayloadSchema))))) := by
        simp [augment_spec, hpaths, hr, hhk, hk2]
      refine ⟨(ensure_webhook_delete_endpoint (augment_webhook_endpoint paths).2).2,
        item', post', ?_, ?_, hpost', htrig, hopid, hnotif,
        augmentWebhookRequest (setKey [] "FulcrumWebhookPayload" createWebhookPayloadSchema),
        ?_, ?_⟩
      · rw [hout]
        rw [topLookup, lookupJ_setKey_ne _ _ _ _ (by decide),
          lookupJ_setKey_ne _ _ _ _ (by decide)]
        exact lookupJ_setKey_self _ _ _
      · rw [lookupJ_ensure_delete_ne _ _ (by decide)]
        exact hitem
      · rw [hout]
        rw [topLookup]
        exact lookupJ_setKey_self _ _ _
      · rw [hasKey, lookupJ_augmentWebhookRequest_ne _ _ (by decide),
          lookupJ_setKey_self]
        rfl
  | some dv =>
      have hobj := hdefs dv hdk
      cases dv with
      | null => simp [Json.isObj] at hobj
      | bool b => simp [Json.isObj] at hobj
      | num n => simp [Json.isObj] at hobj
      | str s => simp [Json.isObj] at hobj
      | arr xs => simp [Json.isObj] at hobj
      | obj defsv =>
        have hk1 : lookupJ (setKey kvs "paths"
            (Json.obj (ensure_webhook_delete_endpoint (augment_webhook_endpoint paths).2).2))
            "definitions" = some (Json.obj defsv) := by
          rw [lookupJ_setKey_ne _ _ _ _ (by decide), hdk]
        have hhk : hasKey (setKey kvs "paths"
            (Json.obj (ensure_webhook_delete_endpoint (augment_webhook_endpoint paths).2).2))
            "definitions" = true := by
          rw [hasKey, hk1]
          rfl
        have hout : augment_spec (Json.obj kvs) =
            (true, Json.obj (setKey (setKey kvs "paths"
              (Json.obj (ensure_webhook_delete_endpoint (augment_webhook_endpoint paths).2).2))
              "definitions" (Json.obj (augmentWebhookRequest (setKey defsv
                "FulcrumWebhookPayload" createWebhookPayloadSchema))))) := by
          simp [augment_spec, hpaths, hr, hhk, hk1]
        refine ⟨(ensure_webhook_delete_endpoint (augment_webhook_endpoint paths).2).2,
          item', post', ?_, ?_, hpost', htrig, hopid, hnotif,
          augmentWebhookRequest (setKey defsv "FulcrumWebhookPayload"
            createWebhookPayloadSchema), ?_, ?_⟩
        · rw [hout]
          rw [topLookup, lookupJ_setKey_ne _ _ _ _ (by decide)]
          exact lookupJ_setKey_self _ _ _
        · rw [lookupJ_ensure_delete_ne _ _ (by decide)]
          exact hitem
        · rw [hout]
          rw [topLookup]
          exact lookupJ_setKey_self _ _ _
        · rw [hasKey, lookupJ_augmentWebhookRequest_ne _ _ (by decide),
            lookupJ_setKey_self]
          rfl

/-- Claim C5: `augment_spec` succeeds exactly when the document has a
`paths` table whose `/v2/webhooks.json` entry has a `post` operation
carrying a parameter named `url`/`callback_url`/`webhook_url` or the body
parameter named `body` — in particular a document without a `paths` table
fails cleanly; and on success the post operation carries
`x-ms-trigger: single` and `operationId: OnFulcrumEvent`, the path item
carries `x-ms-notification-content`, and the definitions contain
`FulcrumWebhookPayload`.  The hypotheses only exclude the dict/list shapes
on which the Python mutations would raise. -/
theorem c5_augment_spec (d : Json) (kvs : List (String × Json))
    (hd : d = Json.obj kvs)
    (hshape : ∀ v, lookupJ kvs "paths" = some v → v.isObj = true)
    (hwf : ∀ paths, lookupJ kvs "paths" = some (Json.obj paths) →
      webhookEndpointWF paths = true)
    (hdefs : ∀ v, lookupJ kvs "definitions" = some v → v.isObj = true) :
    ((augment_spec d).1 = true ↔
      ∃ paths, lookupJ kvs "paths" = some (Json.obj paths) ∧
        webhookTriggerCondition paths = true) ∧
    (∀ paths, lookupJ kvs "paths" = some (Json.obj paths) →
      webhookTriggerCondition paths = true →
      ∃ paths' item' post',
        topLookup (augment_spec d).2 "paths" = some (Json.obj paths') ∧
        lookupJ paths' "/v2/webhooks.json" = some (Json.obj item') ∧
        lookupJ item' "post" = some (Json.obj post') ∧
        lookupJ post' "x-ms-trigger" = some (Json.str "single") ∧
        lookupJ post' "operationId" = some (Json.str "OnFulcrumEvent") ∧
        hasKey item' "x-ms-notification-content" = true ∧
        ∃ defsOut, topLookup (augment_spec d).2 "definitions" = some (Json.obj defsOut) ∧
          hasKey defsOut "FulcrumWebhookPayload" = true) := by
  subst hd
  cases hp : lookupJ kvs "paths" with
  | none =>
      refine ⟨?_, ?_⟩
      · constructor
        · intro hflag
          have hfl : (augment_spec (Json.obj kvs)).1 = false := by
            simp [augment_spec, hp]
          rw [hfl] at hflag
          cases hflag
        · rintro ⟨paths, hpp, -⟩
          cases hpp
      · intro paths hpp
        cases hpp
  | some v =>
      have hv := hshape v hp
      cases v with
      | null => simp [Json.isObj] at hv
      | bool b => simp [Json.isObj] at hv
      | num n => simp [Json.isObj] at hv
      | str s => simp [Json.isObj] at hv
      | arr xs => simp [Json.isObj] at hv
      | obj paths =>
          obtain ⟨hiff, -⟩ := augment_webhook_endpoint_spec paths
          refine ⟨?_, ?_⟩
          · have hflag_eq : (augment_spec (Json.obj kvs)).1 =
                (augment_webhook_endpoint paths).1 := by
              cases hr : (augment_webhook_endpoint paths).1 with
              | false => simp [augment_spec, hp, hr]
              | true =>
                  simp only [augment_spec, hp, hr, if_true]
                  split <;> rfl
            rw [hflag_eq, hiff]
            constructor
            · intro hc
              exact ⟨paths, rfl, hc⟩
            · rintro ⟨paths2, hpp, hc2⟩
              injection hpp with h1
              injection h1 with h2
              subst h2
              exact hc2
          · intro paths2 hpp hc2
            injection hpp with h1
            injection h1 with h2
            subst h2
            exact augment_spec_success_parts kvs paths hp hdefs hc2

/-- Witness for C5 at a concrete minimal specification whose webhook POST
operation carries a `url` parameter (projected to the success iff). -/
theorem c5_augment_spec_witness :
    ((augment_spec (Json.obj [("paths", Json.obj [("/v2/webhooks.json", Json.obj
        [("post", Json.obj [("parameters", Json.arr
          [Json.obj [("name", Json.str "url")]])])])])])).1 = true ↔
      ∃ paths, lookupJ
          [("paths", Json.obj [("/v2/webhooks.json", Json.obj
            [("post", Json.obj [("parameters", Json.arr
              [Json.obj [("name", Json.str "url")]])])])])]
          "paths" = some (Json.obj paths) ∧
        webhookTriggerCondition paths = true) :=
  (c5_augment_spec
    (Json.obj [("paths", Json.obj [("/v2/webhooks.json", Json.obj
      [("post", Json.obj [("parameters", Json.arr
        [Json.obj [("name", Json.str "url")]])])])])])
    [("paths", Json.obj [("/v2/webhooks.json", Json.obj
      [("post", Json.obj [("parameters", Json.arr
        [Json.obj [("name", Json.str "url")]])])])])]
    rfl
    (fun v hv => by
      have hv' : some (Json.obj [("/v2/webhooks.json", Json.obj
          [("post", Json.obj [("parameters", Json.arr
            [Json.obj [("name", Json.str "url")]])])])]) = some v := hv
      injection hv' with h1
      rw [← h1]
      rfl)
    (fun paths hpp => by
      have hpp' : some (Json.obj [("/v2/webhooks.json", Json.obj
          [("post", Json.obj [("parameters", Json.arr
            [Json.obj [("name", Json.str "url")]])])])]) =
          some (Json.obj paths) := hpp
      injection hpp' with h1
      injection h1 with h2
      subst h2
      decide)
    (fun v hv => nomatch hv)).1
